import Mathlib

/-!
Verification development for the Lua outline-boundary resolver
(`src/vscodeextension/src/outlineproviders/lspextenderlua.ts`).

The TypeScript source is shallowly embedded here:
* a host document is a list of lines of characters (vscode's
  line-addressable text buffer, joined with a single newline);
* `stripLuaComments` is translated literally;
* the heuristic resolver (`getLanguageSpecificSymbolInformation`, non-AST
  path) is translated including its per-line global-regex scanning loop,
  whose JavaScript `exec` calls advance the `lastIndex` of every regex on
  every loop iteration (so matches of non-picked keyword kinds are
  consumed without being processed) — this behaviour is modelled exactly;
* the structural (luaparse) route's head/body computation and the
  `visit` traversal are translated over an explicit AST node type;
* loops whose JavaScript originals can fail to terminate are given fuel,
  and fuel exhaustion is reported as a distinguished `nonTermination`
  outcome (the real code would hang there; none of the runs used in the
  theorems below come close to the fuel bounds).

`utils.findInDocument` / `utils.range_new` are imported by the source file
from a module that is not part of the repository snapshot; they are
modelled from the spec (see their doc comments).
-/

namespace LspExtenderLua

abbrev Chars := List Char

/-- A zero-based (line, column) position, as in `vscode.Position`. -/
structure Pos where
  line : Nat
  character : Nat
deriving DecidableEq

/-- An ordered pair of positions, as in `vscode.Range` (`start` .. `stop`,
`stop` named `end` in the source, which is a keyword in Lean). -/
structure Rng where
  start : Pos
  stop : Pos
deriving DecidableEq

/-- The rough symbol supplied by the upstream provider: an overall `range`
and a name `selectionRange` (`vscode.DocumentSymbol`). -/
structure DocSymbol where
  range : Rng
  selectionRange : Rng
deriving DecidableEq

/-- The host document: a line-addressable text buffer.  `lines` are the
texts of the individual lines, none of which contains a newline. -/
structure Doc where
  lines : List Chars
deriving DecidableEq

/-- `document.lineCount`. -/
def Doc.lineCount (d : Doc) : Nat := d.lines.length

/-- `document.lineAt(ln).text` (out-of-range reads yield the empty line;
the source only reads lines it has bounds-checked). -/
def Doc.lineAt (d : Doc) (ln : Nat) : Chars := d.lines.getD ln []

/-- The document's lines joined by `'\n'`. -/
def joinLines : List Chars → Chars
  | [] => []
  | [l] => l
  | l :: l2 :: ls => l ++ '\n' :: joinLines (l2 :: ls)

/-- `document.getText()`: the lines joined by `'\n'`. -/
def Doc.getText (d : Doc) : Chars := joinLines d.lines

/-- `document.offsetAt(position)` for an in-bounds position. -/
def Doc.offsetAt (d : Doc) (p : Pos) : Nat :=
  (d.lines.take p.line).foldl (fun a l => a + l.length + 1) 0 + p.character

def positionAtAux : List Chars → Nat → Nat → Pos
  | [], ln, _ => ⟨ln, 0⟩
  | [l], ln, off => ⟨ln, min off l.length⟩
  | l :: l2 :: ls, ln, off =>
    if off ≤ l.length then ⟨ln, off⟩
    else positionAtAux (l2 :: ls) (ln + 1) (off - l.length - 1)

/-- `document.positionAt(offset)` (clamping at the end of the document). -/
def Doc.positionAt (d : Doc) (off : Nat) : Pos :=
  positionAtAux d.lines 0 off

/-- Character class of JavaScript's `\s` as it occurs in the scanned
lines (space, tab, CR, LF, vertical tab, form feed). -/
def jsSpace (c : Char) : Bool :=
  c == ' ' || c == '\t' || c == '\n' || c == '\r' || c == '\x0b' || c == '\x0c'

/-- Character class of JavaScript's `\w` (used for the `\b` boundaries of
the keyword regexes). -/
def isWordChar (c : Char) : Bool :=
  c.isAlphanum || c == '_'

/-- Leading whitespace of a line: the match of `/^\s*/`. -/
def leadingWs (l : Chars) : Chars := l.takeWhile jsSpace

/-- Index of the first occurrence of `pat` in `s` (`String.indexOf` with
start 0), as an offset; `none` when absent. -/
def findSub : Chars → Chars → Option Nat
  | [], pat => if pat.isEmpty then some 0 else none
  | c :: rest, pat =>
    if pat.isPrefixOf (c :: rest) then some 0
    else (findSub rest pat).map (· + 1)

/-- `s.indexOf(pat, start)`. -/
def indexOfFrom (s pat : Chars) (start : Nat) : Option Nat :=
  (findSub (s.drop start) pat).map (· + start)

/-! ## `stripLuaComments` (source lines 601-639)

Single-line comments (`-- …` to end of line) and level-matched long
bracket comments (`--[[ … ]]`, `--[=[ … ]=]`, …) are replaced by runs of
spaces of the same length; an unterminated long bracket blanks the rest
of the file. -/

/-- One step of `stripLuaComments`' while loop, on the remaining input.
`fuel` dominates the remaining length (each step consumes at least one
character), so the `0` case is never reached by `stripLuaComments`. -/
def stripGo : Nat → Chars → Chars
  | 0, s => s
  | fuel + 1, s =>
    match s with
    | [] => []
    | '-' :: '-' :: rest =>
      match rest with
      | '[' :: r2 =>
        let eq := (r2.takeWhile (· == '=')).length
        match r2.drop eq with
        | '[' :: r4 =>
          let endToken : Chars := ']' :: (List.replicate eq '=' ++ [']'])
          match findSub r4 endToken with
          | some k =>
            let consumed := 4 + eq + k + endToken.length
            List.replicate consumed ' ' ++ stripGo fuel (s.drop consumed)
          | none => List.replicate s.length ' '
        | _ =>
          let k := 2 + ((s.drop 2).takeWhile (· ≠ '\n')).length
          List.replicate k ' ' ++ stripGo fuel (s.drop k)
      | _ =>
        let k := 2 + ((s.drop 2).takeWhile (· ≠ '\n')).length
        List.replicate k ' ' ++ stripGo fuel (s.drop k)
    | c :: rest => c :: stripGo fuel rest

/-- `stripLuaComments(src)`. -/
def stripLuaComments (s : Chars) : Chars := stripGo s.length s

/-! ## Keyword matching (the `/\bkw\b/gi` regexes, source lines 429-436) -/

/-- Whether the case-insensitive keyword `kw` matches in `s` at index `i`
with `\b` word boundaries on both sides. -/
def matchKwAt (s kw : Chars) (i : Nat) : Bool :=
  i + kw.length ≤ s.length
  && (List.zip ((s.drop i).take kw.length) kw).all
       (fun p => p.1.toLower == p.2.toLower)
  && (i == 0 || !(isWordChar (s.getD (i - 1) ' ')))
  && !(isWordChar (s.getD (i + kw.length) ' '))

def execFromAux (s kw : Chars) : Nat → Nat → Option Nat
  | 0, _ => none
  | fuel + 1, i =>
    if i + kw.length > s.length then none
    else if matchKwAt s kw i then some i
    else execFromAux s kw fuel (i + 1)

/-- `regex.exec(s)` for a sticky-free global regex `/\bkw\b/gi` whose
`lastIndex` is `li`: index of the first word-bounded occurrence at or
after `li`. -/
def execFrom (s kw : Chars) (li : Nat) : Option Nat :=
  execFromAux s kw (s.length + 1 - li) li

/-- The eight keyword kinds tracked by the body-end scan. -/
inductive Kw
  | kfunction | kdo | krepeat | kif | kfor | kwhile | kend | kuntil
deriving DecidableEq

def Kw.text : Kw → Chars
  | .kfunction => "function".data
  | .kdo => "do".data
  | .krepeat => "repeat".data
  | .kif => "if".data
  | .kfor => "for".data
  | .kwhile => "while".data
  | .kend => "end".data
  | .kuntil => "until".data

/-- The `lastIndex` state of the eight global regexes. -/
structure KwIdx where
  kfunction : Nat
  kdo : Nat
  krepeat : Nat
  kif : Nat
  kfor : Nat
  kwhile : Nat
  kend : Nat
  kuntil : Nat
deriving DecidableEq

def KwIdx.zero : KwIdx := ⟨0, 0, 0, 0, 0, 0, 0, 0⟩

def KwIdx.get : KwIdx → Kw → Nat
  | st, .kfunction => st.kfunction
  | st, .kdo => st.kdo
  | st, .krepeat => st.krepeat
  | st, .kif => st.kif
  | st, .kfor => st.kfor
  | st, .kwhile => st.kwhile
  | st, .kend => st.kend
  | st, .kuntil => st.kuntil

def KwIdx.set : KwIdx → Kw → Nat → KwIdx
  | st, .kfunction, v => { st with kfunction := v }
  | st, .kdo, v => { st with kdo := v }
  | st, .krepeat, v => { st with krepeat := v }
  | st, .kif, v => { st with kif := v }
  | st, .kfor, v => { st with kfor := v }
  | st, .kwhile, v => { st with kwhile := v }
  | st, .kend, v => { st with kend := v }
  | st, .kuntil, v => { st with kuntil := v }

/-- The candidate array order of source lines 508-517 (stable sort by
match index; ties are impossible for distinct keywords but the earlier
array entry would win). -/
def kwOrder : List Kw :=
  [.kfunction, .kdo, .krepeat, .kif, .kfor, .kwhile, .kend, .kuntil]

/-- `/\belse\s*$/i.test(before)` (source line 537). -/
def elseTrailing (before : Chars) : Bool :=
  let ts := (before.reverse.dropWhile jsSpace).reverse
  4 ≤ ts.length && matchKwAt ts "else".data (ts.length - 4)

/-- Outcome of scanning one line of the body-end search. -/
inductive LineRes
  | ret (ln col : Nat)
  | cont (depth : Nat)
  | hang
deriving DecidableEq

/-- One full execution of the `while (true)` loop of source lines
497-571, for one line.  Each round runs `exec` on all eight regexes
(advancing each regex's `lastIndex` past its own next match, or resetting
it to 0 on failure), then processes only the earliest match.  The loop
can revisit matches after a reset, and in pathological cases the real
code does not terminate; `fuel` bounds the number of rounds, with
exhaustion reported as `hang`. -/
def lineRounds (sub origLine : Chars) (searchFrom ln : Nat)
    (startIndent : Chars) : Nat → Nat → KwIdx → LineRes
  | 0, _, _ => .hang
  | fuel + 1, depth, st =>
    let results : List (Kw × Option Nat) :=
      kwOrder.map (fun k => (k, execFrom sub k.text (st.get k)))
    let st' : KwIdx :=
      results.foldl
        (fun acc kr =>
          match kr.2 with
          | some i => acc.set kr.1 (i + kr.1.text.length)
          | none => acc.set kr.1 0)
        st
    let cands : List (Kw × Nat) :=
      results.filterMap (fun kr => kr.2.map (fun i => (kr.1, i)))
    match cands with
    | [] => .cont depth
    | c0 :: cs =>
      let pick := cs.foldl (fun best c => if c.2 < best.2 then c else best) c0
      match pick.1 with
      | .kfunction => lineRounds sub origLine searchFrom ln startIndent fuel (depth + 1) st'
      | .kdo => lineRounds sub origLine searchFrom ln startIndent fuel (depth + 1) st'
      | .krepeat => lineRounds sub origLine searchFrom ln startIndent fuel (depth + 1) st'
      | .kfor => lineRounds sub origLine searchFrom ln startIndent fuel (depth + 1) st'
      | .kwhile => lineRounds sub origLine searchFrom ln startIndent fuel (depth + 1) st'
      | .kif =>
        let absoluteIdx := searchFrom + pick.2
        let beforeText := origLine.take absoluteIdx
        if elseTrailing beforeText then
          lineRounds sub origLine searchFrom ln startIndent fuel depth st'
        else
          lineRounds sub origLine searchFrom ln startIndent fuel (depth + 1) st'
      | .kend =>
        if depth == 0 then
          if leadingWs origLine == startIndent then .ret ln (searchFrom + pick.2)
          else lineRounds sub origLine searchFrom ln startIndent fuel depth st'
        else lineRounds sub origLine searchFrom ln startIndent fuel (depth - 1) st'
      | .kuntil =>
        if depth == 0 then
          if leadingWs origLine == startIndent then .ret ln (searchFrom + pick.2)
          else lineRounds sub origLine searchFrom ln startIndent fuel depth st'
        else lineRounds sub origLine searchFrom ln startIndent fuel (depth - 1) st'

/-- Fuel given to `lineRounds` for a line: far beyond the number of
rounds of any terminating run on the documents considered. -/
def lineFuel (sub : Chars) : Nat := (sub.length + 2) * (sub.length + 2)

/-- First (leftmost) match of the block-comment-opener regex
(two dashes, a bracket, a run of `=` signs, a bracket) in a line: its
index and the number of `=` signs. -/
def findBlockStart (l : Chars) : Option (Nat × Nat) :=
  match l with
  | [] => none
  | _ :: rest =>
    match l with
    | '-' :: '-' :: '[' :: r3 =>
      let eq := (r3.takeWhile (· == '=')).length
      match r3.drop eq with
      | '[' :: _ => some (0, eq)
      | _ => (findBlockStart rest).map (fun p => (p.1 + 1, p.2))
    | _ => (findBlockStart rest).map (fun p => (p.1 + 1, p.2))

/-- Outcome of the body-end scan (source lines 427-574): the position of
the accepted terminator keyword, end-of-document without one, or fuel
exhaustion of a line's scanning loop. -/
inductive ScanResult
  | found (ln col : Nat)
  | notFound
  | hang
deriving DecidableEq

/-- The per-line body of the `for ln` loop of source lines 445-572:
block-comment state handling, inline block-comment removal (one per
line), single-line comment truncation, then the keyword round loop.
`sf` is the `searchFrom` for the current line (`body_start_char` on the
first line, 0 afterwards). -/
def scanGo (startIndent : Chars) :
    List Chars → Nat → Nat → Nat → Option Chars → ScanResult
  | [], _, _, _, _ => .notFound
  | origLine :: restLines, ln, sf, depth, inBlock =>
    let step1 : Option (Chars × Option Chars) :=
      match inBlock with
      | some close =>
        match indexOfFrom origLine close 0 with
        | some ci => some (origLine.drop (ci + close.length), none)
        | none => none
      | none => some (origLine, none)
    match step1 with
    | none => scanGo startIndent restLines (ln + 1) 0 depth inBlock
    | some (t1, _) =>
      let t2inB : Chars × Option Chars :=
        match findBlockStart t1 with
        | some (startIdx, eq) =>
          let close : Chars := ']' :: (List.replicate eq '=' ++ [']'])
          match indexOfFrom t1 close (startIdx + 4 + eq) with
          | some ci => (t1.take startIdx ++ t1.drop (ci + close.length), none)
          | none => (t1.take startIdx, some close)
        | none => (t1, none)
      let t3 : Chars :=
        match indexOfFrom t2inB.1 "--".data 0 with
        | some ci => t2inB.1.take ci
        | none => t2inB.1
      let sub := t3.drop sf
      if sub.isEmpty then
        scanGo startIndent restLines (ln + 1) 0 depth t2inB.2
      else
        match lineRounds sub origLine sf ln startIndent (lineFuel sub) depth KwIdx.zero with
        | .ret l c => .found l c
        | .cont d' => scanGo startIndent restLines (ln + 1) 0 d' t2inB.2
        | .hang => .hang

/-- The whole body-end search (the `endPos` closure, source lines
427-574), scanning from `(bodyStartLine, bodyStartChar)`. -/
def bodyEndScan (d : Doc) (bodyStartLine bodyStartChar : Nat)
    (startIndent : Chars) : ScanResult :=
  scanGo startIndent (d.lines.drop bodyStartLine) bodyStartLine bodyStartChar 0 none

/-! ## The string-and-long-bracket-skipping paren matcher
(the `parenEnd` closure of the head-end search, source lines 275-326) -/

/-- Number of loop steps of the quoted-string skip (source lines
285-293) on the characters after the opening quote: advances one for an
ordinary character, two for a backslash escape, and stops on the closing
quote or end of line.  The caller adds the final `i++`. -/
def skipQuoteAux (q : Char) : Chars → Nat
  | [] => 0
  | [c] => if c == q then 0 else if c == '\\' then 2 else 1
  | c :: c2 :: rest =>
    if c == q then 0
    else if c == '\\' then 2 + skipQuoteAux q rest
    else 1 + skipQuoteAux q (c2 :: rest)

/-- The match of the long-bracket-opener check (an opening bracket, a
run of `=` signs, an opening bracket) at index `i` of a line: the number
of `=` signs, or `none`. -/
def longOpenEq (l : Chars) (i : Nat) : Option Nat :=
  match l.drop i with
  | '[' :: r =>
    let eq := (r.takeWhile (· == '=')).length
    match r.drop eq with
    | '[' :: _ => some eq
    | _ => none
  | _ => none

/-- The inner `for ln2` search for a long bracket's closing token
(source lines 302-311): scans line `ln2` from `startIdx`, later lines
from 0; returns the line and index of the first occurrence. -/
def longCloseGo (close : Chars) : List Chars → Nat → Nat → Option (Nat × Nat)
  | [], _, _ => none
  | l :: ls, ln2, startIdx =>
    match indexOfFrom l close startIdx with
    | some idx => some (ln2, idx)
    | none => longCloseGo close ls (ln2 + 1) 0

/-- One step of the character-wise matching scan for the closing `)`
(source lines 275-326).  `lineText` is the text the inner `while` loop
is iterating over; when a long bracket closes on a later line the source
updates `ln` and `i` but keeps iterating the stale `lineText`, which is
reproduced here.  The scan can fail to advance in contrived documents,
hence the fuel. -/
def parenScanGo (d : Doc) : Nat → Nat → Nat → Nat → Chars → ScanResult
  | 0, _, _, _, _ => .hang
  | fuel + 1, ln, i, depth, lineText =>
    if i < lineText.length then
      let ch := lineText.getD i ' '
      if ch == '"' || ch == '\'' then
        parenScanGo d fuel ln (i + 1 + skipQuoteAux ch (lineText.drop (i + 1)) + 1) depth lineText
      else
        match longOpenEq lineText i with
        | some eq =>
          let close : Chars := ']' :: (List.replicate eq '=' ++ [']'])
          match longCloseGo close (d.lines.drop ln) ln (i + 2 + eq) with
          | none => .notFound
          | some (ln2, idx) =>
            parenScanGo d fuel (if ln < ln2 then ln2 else ln) (idx + close.length) depth lineText
        | none =>
          if ch == '(' then parenScanGo d fuel ln (i + 1) (depth + 1) lineText
          else if ch == ')' then
            if depth ≤ 1 then .found ln i
            else parenScanGo d fuel ln (i + 1) (depth - 1) lineText
          else parenScanGo d fuel ln (i + 1) depth lineText
    else
      if ln + 1 < d.lineCount then parenScanGo d fuel (ln + 1) 0 depth (d.lineAt (ln + 1))
      else .notFound

/-- Fuel for `parenScanGo`: far beyond the step count of any terminating
scan of the document. -/
def parenFuel (d : Doc) : Nat :=
  d.getText.length + d.getText.length + d.lineCount + d.lineCount + 8

/-! ## The plain paren matcher of fallback strategies 2 and 3
(source lines 349-362 and 375-386): counts only parentheses. -/

def simpleLineGo : Chars → Nat → Nat → Option Nat × Nat
  | [], _, depth => (none, depth)
  | c :: rest, i, depth =>
    if c == '(' then simpleLineGo rest (i + 1) (depth + 1)
    else if c == ')' then
      if depth ≤ 1 then (some i, depth) else simpleLineGo rest (i + 1) (depth - 1)
    else simpleLineGo rest (i + 1) depth

def parenScanSimpleGo : List Chars → Nat → Nat → Nat → Option (Nat × Nat)
  | [], _, _, _ => none
  | l :: ls, ln, ch, depth =>
    match simpleLineGo (l.drop ch) ch depth with
    | (some i, _) => some (ln, i)
    | (none, d') => parenScanSimpleGo ls (ln + 1) 0 d'

def parenScanSimple (d : Doc) (startLn startCh : Nat) : Option (Nat × Nat) :=
  parenScanSimpleGo (d.lines.drop startLn) startLn startCh 0

/-! ## `utils.findInDocument` (external collaborator) -/

def findInDocGo (needle : Chars) : List Chars → Nat → Nat → Option (Nat × Nat)
  | [], _, _ => none
  | l :: ls, ln, ch =>
    match indexOfFrom l needle ch with
    | some i => some (ln, i)
    | none => findInDocGo needle ls (ln + 1) 0

/-- Modelled from the spec: `utils.findInDocument(needle, document, pos)`
is imported from `../utils`, a module that is not part of the repository
snapshot.  Per the spec's head-end fallback descriptions (§4.4 b-d:
"retry the paren search from ...", "locate a function-introducing
keyword within the rough symbol's range and search for `(` after it",
"search ... for a body-introducing keyword"), it is the position of the
first occurrence of the literal needle text at or after the given
position: the given line is scanned from the given column, later lines
from column 0. -/
def findInDocument (needle : Chars) (d : Doc) (p : Nat × Nat) : Option (Nat × Nat) :=
  findInDocGo needle (d.lines.drop p.1) p.1 p.2

/-! ## The heuristic resolver (source lines 244-584) -/

/-- `stripped.indexOf('(', startOffset)` with
`startOffset = document.offsetAt(docSymbol.range.start)`
(source lines 244-269). -/
def strategyOneParenIdx (d : Doc) (sym : DocSymbol) : Option Nat :=
  indexOfFrom (stripLuaComments d.getText) ['('] (d.offsetAt sym.range.start)

/-- Head-end strategy 1: find the first `(` of the comment-stripped text
at or after the rough symbol's overall range start, then match its `)`
with the string-and-long-bracket-skipping scan. -/
def strategyOneScan (d : Doc) (sym : DocSymbol) : ScanResult :=
  match strategyOneParenIdx d sym with
  | none => .notFound
  | some pi =>
    let pl := d.positionAt pi
    parenScanGo d (parenFuel d) pl.line pl.character 0 (d.lineAt pl.line)

/-- Resolution failures surfaced by the heuristic route.
`bodyUnresolvable` is the thrown
`Error('... Could not find matching end keyword.')`;
`nonTermination` marks runs on which the original scanning loops do not
terminate (modelled by fuel exhaustion). -/
inductive RErr
  | bodyUnresolvable
  | nonTermination
deriving DecidableEq

/-- The head-end search with its four fallback strategies and the
`do`/`repeat` preference (source lines 256-404).  Strategy 4 always
produces a position, so the only failure is non-termination of the
strategy-1 scan. -/
def headEndSearch (d : Doc) (sym : DocSymbol) : Except RErr (Nat × Nat) :=
  let nameStart := (sym.selectionRange.start.line, sym.selectionRange.start.character)
  let nameEnd := (sym.selectionRange.stop.line, sym.selectionRange.stop.character)
  match strategyOneScan d sym with
  | .hang => .error .nonTermination
  | s1 =>
    let headEnd0 : Option (Nat × Nat) :=
      match s1 with
      | .found l c => some (l, c)
      | _ => none
    let doLoc :=
      (findInDocument " do".data d nameEnd).orElse
        (fun _ => findInDocument "do".data d nameEnd)
    let repeatLoc := findInDocument "repeat".data d nameEnd
    let headEnd1 : Option (Nat × Nat) :=
      match headEnd0 with
      | none =>
        match doLoc with
        | some dl => some dl
        | none => repeatLoc
      | some he =>
        match doLoc with
        | some dl =>
          if dl.1 > he.1 || (dl.1 == he.1 && dl.2 > he.2) then some dl else some he
        | none => some he
    let headEnd2 : Option (Nat × Nat) :=
      match headEnd1 with
      | some he => some he
      | none =>
        match findInDocument "(".data d nameStart with
        | some pl => parenScanSimple d pl.1 pl.2
        | none => none
    let headEnd3 : Option (Nat × Nat) :=
      match headEnd2 with
      | some he => some he
      | none =>
        match findInDocument "function".data d nameStart with
        | some fk =>
          match findInDocument "(".data d fk with
          | some pf => parenScanSimple d pf.1 pf.2
          | none => none
        | none => none
    match headEnd3 with
    | some he => .ok he
    | none =>
      let lineText := d.lineAt nameStart.1
      match indexOfFrom lineText " do".data nameStart.2 with
      | some di => .ok (nameStart.1, di + 1)
      | none =>
        match indexOfFrom lineText "repeat".data nameStart.2 with
        | some ri => .ok (nameStart.1, ri)
        | none => .ok nameEnd

/-- The body-start adjustment applied to the head range's end (source
lines 410-424): skip a closing parenthesis sitting exactly at the head
end, then, when the remainder of that line is blank, move to the start
of the next line. -/
def bodyStartAdjust (d : Doc) (he : Pos) : Pos :=
  let l := d.lineAt he.line
  let bsc := if he.character < l.length && l.getD he.character ' ' == ')' then
    he.character + 1 else he.character
  if (l.drop bsc).all jsSpace then ⟨he.line + 1, 0⟩ else ⟨he.line, bsc⟩

/-- Result of one heuristic resolution call: the head and body ranges
(the returned attribute list is always empty and is omitted), or an
error. -/
inductive RRes
  | ok (head body : Rng)
  | err (e : RErr)
deriving DecidableEq

/-- The body-end scan as invoked by the resolver (its `startIndent` is
the leading whitespace of the head range's start line, i.e. of the
selection range's start line). -/
def resolveBodyScan (d : Doc) (sym : DocSymbol) : Option ScanResult :=
  match headEndSearch d sym with
  | .error _ => none
  | .ok he =>
    let bs := bodyStartAdjust d ⟨he.1, he.2⟩
    some (bodyEndScan d bs.line bs.character
      (leadingWs (d.lineAt sym.selectionRange.start.line)))

/-- The heuristic route of `getLanguageSpecificSymbolInformation`
(source lines 244-584): head range from the selection start to the found
head end, body range from the adjusted body start to three characters
past the accepted terminator (`END_KEYWORD.length`, also applied to
`until`). -/
def resolveHeuristic (d : Doc) (sym : DocSymbol) : RRes :=
  match headEndSearch d sym with
  | .error e => .err e
  | .ok he =>
    let rangeHead : Rng := ⟨sym.selectionRange.start, ⟨he.1, he.2⟩⟩
    let bs := bodyStartAdjust d rangeHead.stop
    let startIndent := leadingWs (d.lineAt rangeHead.start.line)
    match bodyEndScan d bs.line bs.character startIndent with
    | .found el ec => .ok rangeHead ⟨bs, ⟨el, ec + 3⟩⟩
    | .notFound => .err .bodyUnresolvable
    | .hang => .err .nonTermination

/-! ## The structural (luaparse) route (source lines 42-238)

A parse-tree node is modelled by the fields the resolver reads: its
`type` string, its offset span (`range`), and the optional sub-object
ranges used by the head/body dispatch.  For real luaparse trees the
`clauseBody` field of a clause is always `none` (an `IfClause`'s `body`
is an array, which has no `range` property); it is kept so the
translation matches the source's conditional. -/

structure Clause where
  crange : Nat × Nat
  condRange : Option (Nat × Nat)
  clauseBody : Option (Nat × Nat)
deriving DecidableEq

structure LNode where
  ntype : String
  nrange : Nat × Nat
  identifierRange : Option (Nat × Nat)
  variablesFirst : Option (Nat × Nat)
  initFirst : Option (String × (Nat × Nat))
  clauses : List Clause
deriving DecidableEq

/-- `findMatchingParen(src, openIdx)` (source lines 74-108): flat-text
matcher skipping quoted strings and long brackets; depth is a JavaScript
number, returning exactly when it comes back to 0.  Every step strictly
advances `i`, so plain fuel `src.length + 2` suffices. -/
def findMatchingParenGo (src : Chars) : Nat → Nat → Int → Option Nat
  | 0, _, _ => none
  | fuel + 1, i, depth =>
    if i < src.length then
      let ch := src.getD i ' '
      if ch == '"' || ch == '\'' then
        findMatchingParenGo src fuel (i + 1 + skipQuoteAux ch (src.drop (i + 1)) + 1) depth
      else
        match longOpenEq src i with
        | some eq =>
          let close : Chars := ']' :: (List.replicate eq '=' ++ [']'])
          match indexOfFrom src close (i + 2 + eq) with
          | none => none
          | some e => findMatchingParenGo src fuel (e + close.length) depth
        | none =>
          if ch == '(' then findMatchingParenGo src fuel (i + 1) (depth + 1)
          else if ch == ')' then
            if depth - 1 = 0 then some i
            else findMatchingParenGo src fuel (i + 1) (depth - 1)
          else findMatchingParenGo src fuel (i + 1) depth
    else none

def findMatchingParen (src : Chars) (openIdx : Nat) : Option Nat :=
  findMatchingParenGo src (src.length + 2) openIdx 0

/-- The four offsets computed by the structural head/body dispatch
(source lines 110-223), before conversion to positions. -/
structure StructIdx where
  headStartIdx : Nat
  headEndIdx : Nat
  bodyStartIdx : Nat
  bodyEndIdx : Nat
deriving DecidableEq

def structCompute (src : Chars) (node : LNode) (selOffset : Nat) : StructIdx :=
  let nodeRangeStart := node.nrange.1
  let nodeRangeEnd := node.nrange.2
  let lowerSrc := src.map Char.toLower
  if node.ntype == "FunctionDeclaration" || node.ntype == "FunctionStatement" then
    let headStartIdx :=
      match node.identifierRange with
      | some r => r.1
      | none => nodeRangeStart
    match indexOfFrom src ['('] headStartIdx with
    | some openIdx =>
      if openIdx < nodeRangeEnd then
        match findMatchingParen src openIdx with
        | some closeIdx => ⟨headStartIdx, closeIdx + 1, closeIdx + 1, nodeRangeEnd⟩
        | none => ⟨headStartIdx, openIdx + 1, openIdx + 1, nodeRangeEnd⟩
      else ⟨headStartIdx, nodeRangeStart + 8, nodeRangeStart + 8, nodeRangeEnd⟩
    | none => ⟨headStartIdx, nodeRangeStart + 8, nodeRangeStart + 8, nodeRangeEnd⟩
  else if node.ntype == "AssignmentStatement"
      && (match node.initFirst with
          | some (t, _) => t == "FunctionDeclaration" || t == "FunctionExpression"
          | none => false) then
    let funcRange := (node.initFirst.map Prod.snd).getD (nodeRangeStart, nodeRangeEnd)
    let headStartIdx :=
      match node.variablesFirst with
      | some r => r.1
      | none => nodeRangeStart
    let funcStart := funcRange.1
    match indexOfFrom src ['('] funcStart with
    | some openIdx =>
      match findMatchingParen src openIdx with
      | some closeIdx => ⟨headStartIdx, closeIdx + 1, closeIdx + 1, funcRange.2⟩
      | none => ⟨headStartIdx, funcStart + 8, funcStart + 8, funcRange.2⟩
    | none => ⟨headStartIdx, funcStart + 8, funcStart + 8, funcRange.2⟩
  else if node.ntype == "IfStatement" then
    let clause : Option Clause :=
      match node.clauses.find? (fun c => c.crange.1 ≤ selOffset && selOffset ≤ c.crange.2) with
      | some c => some c
      | none => node.clauses.head?
    match clause with
    | some c =>
      let headStartIdx := c.crange.1
      let bound :=
        match c.clauseBody with
        | some br => br.1
        | none => nodeRangeEnd
      match indexOfFrom lowerSrc "then".data headStartIdx with
      | some thenIdx =>
        if thenIdx < bound then ⟨headStartIdx, thenIdx + 4, thenIdx + 4, nodeRangeEnd⟩
        else
          let he := match c.condRange with
            | some cr => cr.2
            | none => c.crange.2
          ⟨headStartIdx, he, he, nodeRangeEnd⟩
      | none =>
        let he := match c.condRange with
          | some cr => cr.2
          | none => c.crange.2
        ⟨headStartIdx, he, he, nodeRangeEnd⟩
    | none => ⟨nodeRangeStart, nodeRangeStart, nodeRangeStart, nodeRangeEnd⟩
  else if node.ntype == "ForNumericStatement" || node.ntype == "ForGenericStatement"
      || node.ntype == "WhileStatement" then
    match indexOfFrom lowerSrc " do".data nodeRangeStart with
    | some doIdx =>
      if doIdx < nodeRangeEnd then ⟨nodeRangeStart, doIdx + 1, doIdx + 1, nodeRangeEnd⟩
      else ⟨nodeRangeStart, nodeRangeStart + 4, nodeRangeStart + 4, nodeRangeEnd⟩
    | none => ⟨nodeRangeStart, nodeRangeStart + 4, nodeRangeStart + 4, nodeRangeEnd⟩
  else if node.ntype == "RepeatStatement" then
    ⟨nodeRangeStart, nodeRangeStart + 6, nodeRangeStart + 6, nodeRangeEnd⟩
  else
    ⟨nodeRangeStart, min (nodeRangeStart + 10) nodeRangeEnd,
     min (nodeRangeStart + 10) nodeRangeEnd, nodeRangeEnd⟩

/-- Conversion of the computed offsets to the returned head/body ranges
(source lines 226-234), clamping offsets to the document length. -/
def structResolve (d : Doc) (node : LNode) (selOffset : Nat) : Rng × Rng :=
  let src := d.getText
  let si := structCompute src node selOffset
  (⟨d.positionAt (min si.headStartIdx src.length), d.positionAt (min si.headEndIdx src.length)⟩,
   ⟨d.positionAt (min si.bodyStartIdx src.length), d.positionAt (min si.bodyEndIdx src.length)⟩)

/-- A parse-tree: a node's payload plus its child nodes in the order the
traversal visits them (`Object.keys` order in the source). -/
inductive Ast
  | node : LNode → List Ast → Ast

/-- The acceptance test of `visit` (source lines 55-62): the node's span
contains the selection offset and its `type` is one of the six kinds the
traversal selects. -/
def visitAccepts (info : LNode) (selOffset : Nat) : Bool :=
  info.nrange.1 ≤ selOffset && selOffset ≤ info.nrange.2
  && (info.ntype == "FunctionDeclaration" || info.ntype == "FunctionStatement"
      || info.ntype == "ForNumericStatement" || info.ntype == "ForGenericStatement"
      || info.ntype == "IfStatement" || info.ntype == "RepeatStatement")

mutual

/-- The `visit` traversal (source lines 53-70): `foundNode` is a
mutable cell overwritten by each accepted node, the node itself being
tested before its children; the result is the last accepted node in
traversal order. -/
def visitFold (selOffset : Nat) : Ast → Option LNode → Option LNode
  | .node info children, acc =>
    visitList selOffset children
      (if visitAccepts info selOffset then some info else acc)

def visitList (selOffset : Nat) : List Ast → Option LNode → Option LNode
  | [], acc => acc
  | a :: rest, acc => visitList selOffset rest (visitFold selOffset a acc)

end

/-! ## `provideOutlineForRange` (source lines 587-597) -/

/-- `provideOutlineForRange`: the external
`OutlineUtils.getDocumentSymbolsInRange` result (a collaborator outside
this file) is taken as a parameter; the method then unconditionally
throws `Error('outlines for ranges are not yet implemented')`. -/
def provideOutlineForRange {α : Type} (symbolsInRange : List α) (d : Doc)
    (symbolRange : Rng) : Except String (List α) :=
  .error "outlines for ranges are not yet implemented"

/-! ## Claim-side definitions

These definitions follow the wording of the specification (not the
source); they exist to be compared with the source-derived definitions
above. -/

/-- Modelled from the spec (claim C5): "the first `(` in the
comment-stripped text at or after the rough symbol's name-range end (the
selectionRange end)". -/
def claimFiveParenIdx (d : Doc) (sym : DocSymbol) : Option Nat :=
  indexOfFrom (stripLuaComments d.getText) ['('] (d.offsetAt sym.selectionRange.stop)

/-- Modelled from the spec (claim C4): the offset regions strictly
inside quoted string literals or raw multi-line (long-bracket) literals
of a Lua text, by a straightforward left-to-right lexer.  Each region is
a half-open interval of interior offsets (delimiters excluded). -/
def literalRegionsGo : Nat → Chars → Nat → List (Nat × Nat)
  | 0, _, _ => []
  | _ + 1, [], _ => []
  | fuel + 1, c :: rest, off =>
    if c == '"' || c == '\'' then
      let k := skipQuoteAux c rest
      (off + 1, off + 1 + k) :: literalRegionsGo fuel (rest.drop (k + 1)) (off + k + 2)
    else
      match longOpenEq (c :: rest) 0 with
      | some eq =>
        let close : Chars := ']' :: (List.replicate eq '=' ++ [']'])
        match indexOfFrom (c :: rest) close (2 + eq) with
        | some ci =>
          (off + 2 + eq, off + ci) ::
            literalRegionsGo fuel ((c :: rest).drop (ci + close.length)) (off + ci + close.length)
        | none => [(off + 2 + eq, off + (c :: rest).length)]
      | none => literalRegionsGo fuel rest (off + 1)

def literalRegions (s : Chars) : List (Nat × Nat) := literalRegionsGo s.length s 0

/-- Whether offset `i` lies strictly inside a string or long-bracket
literal of `s` (claim-side, see `literalRegions`). -/
def insideLiteral (s : Chars) (i : Nat) : Bool :=
  (literalRegions s).any (fun r => r.1 ≤ i && i < r.2)


/-- Modelled from the spec (claim C7): the closing long-bracket token of
level `lv`. -/
def closeTok (lv : Nat) : Chars := ']' :: (List.replicate lv '=' ++ [']'])

/-- Modelled from the spec (claim C7): lexer mode — plain code, inside a
single-line comment, or inside a long-bracket block comment of the given
level. -/
inductive MaskMode
  | code
  | lineC
  | blockC (lv : Nat)

/-- Modelled from the spec (claim C7): streaming per-character
classification of the text — `true` exactly at the positions that are
part of a comment. In code mode `--` starts a comment: a long-bracket
block comment when followed by `[=*[` (the comment runs through the
level-matched closing token, or to the end of the file when
unterminated), otherwise a single-line comment (running up to but not
including the next newline). `fuel` dominates the remaining length, so
the `0` case is never reached from `commentMask`. -/
def maskGo : Nat → MaskMode → Chars → List Bool
  | 0, _, s => List.replicate s.length false
  | fuel + 1, .code, s =>
    match s with
    | [] => []
    | '-' :: '-' :: rest =>
      match rest with
      | '[' :: r2 =>
        let eq := (r2.takeWhile (· == '=')).length
        match r2.drop eq with
        | '[' :: _ =>
          List.replicate (4 + eq) true ++
            maskGo fuel (.blockC eq) (('-' :: '-' :: '[' :: r2).drop (4 + eq))
        | _ => true :: true :: maskGo fuel .lineC rest
      | _ => true :: true :: maskGo fuel .lineC rest
    | _ :: rest => false :: maskGo fuel .code rest
  | fuel + 1, .lineC, s =>
    match s with
    | [] => []
    | c :: rest =>
      if c = '\n' then false :: maskGo fuel .code rest
      else true :: maskGo fuel .lineC rest
  | fuel + 1, .blockC lv, s =>
    match s with
    | [] => []
    | c :: rest =>
      if (closeTok lv).isPrefixOf (c :: rest) then
        List.replicate (lv + 2) true ++ maskGo fuel .code ((c :: rest).drop (lv + 2))
      else true :: maskGo fuel (.blockC lv) rest

/-- Modelled from the spec (claim C7): which characters of the text are
part of a comment. -/
def commentMask (s : Chars) : List Bool := maskGo s.length .code s

/-- Blank the marked characters, keep the rest. -/
def applyMask (m : List Bool) (s : Chars) : Chars :=
  List.zipWith (fun b c => if b then ' ' else c) m s

/-- Modelled from the spec (claim C3): the candidate kinds the claim
lists — "function declaration/expression, numeric-for, generic-for,
while, conditional, repeat" — under luaparse's node type names. -/
def claimCandidateTypes : List String :=
  ["FunctionDeclaration", "ForNumericStatement", "ForGenericStatement",
   "WhileStatement", "IfStatement", "RepeatStatement"]

/-- Modelled from the spec (claim C3): a node is a candidate enclosure
exactly when its span contains the offset and its kind is in the
claim's list. -/
def claimCandidate (info : LNode) (selOffset : Nat) : Bool :=
  info.nrange.1 ≤ selOffset && selOffset ≤ info.nrange.2
    && claimCandidateTypes.contains info.ntype

/-- The source-side candidate type list actually tested by `visit`
(source line 59). -/
def visitCandidateTypes : List String :=
  ["FunctionDeclaration", "FunctionStatement", "ForNumericStatement",
   "ForGenericStatement", "IfStatement", "RepeatStatement"]

/-! ## Concrete documents and symbols used by the theorems -/

/-- Build a document from string lines. -/
def mkDoc (ls : List String) : Doc := ⟨ls.map String.data⟩

/-- Claim C1's counterexample document: a function properly nesting an
`if ... end` whose opener and terminator share a line. -/
def nestOneLineDoc : Doc := mkDoc ["function f()", "  if x then y() end", "end"]

def nestOneLineSym : DocSymbol := ⟨⟨⟨0, 0⟩, ⟨2, 3⟩⟩, ⟨⟨0, 9⟩, ⟨0, 10⟩⟩⟩


/-- Claim C1 boundary case: every opener and terminator on its own line,
but the function's own final `end` indented unlike the head line. -/
def misindentedDoc : Doc := mkDoc ["function f()", "  if x then", "  end", "  end"]

def misindentedSym : DocSymbol := ⟨⟨⟨0, 0⟩, ⟨3, 5⟩⟩, ⟨⟨0, 9⟩, ⟨0, 10⟩⟩⟩

/-- Claim C1 boundary case: the literal text `end` inside a quoted
string at the head line's indentation, before the construct's own final
`end`. -/
def stringEndDoc : Doc :=
  mkDoc ["function f()", "  if x then", "  end", "x = \"end\"", "end"]

def stringEndSym : DocSymbol := ⟨⟨⟨0, 0⟩, ⟨4, 3⟩⟩, ⟨⟨0, 9⟩, ⟨0, 10⟩⟩⟩

/-- Claim C1's amended family: a function body nesting `n` conditional
blocks, every block-opening keyword and every terminator on its own
line. -/
def famDoc (n : Nat) : Doc :=
  ⟨"function f()".data ::
    (List.replicate n "  if x then".data ++
      ("  print(1)".data :: (List.replicate n "  end".data ++ ["end".data])))⟩

def famSym (n : Nat) : DocSymbol := ⟨⟨⟨0, 0⟩, ⟨2 * n + 2, 3⟩⟩, ⟨⟨0, 9⟩, ⟨0, 10⟩⟩⟩

/-- Spec scenario 1 (used for claim C2): `function foo(a,b) …`. -/
def scenarioOneDoc : Doc := mkDoc ["function foo(a,b)", "  return a+b", "end"]

def scenarioOneSym : DocSymbol := ⟨⟨⟨0, 0⟩, ⟨2, 3⟩⟩, ⟨⟨0, 9⟩, ⟨0, 12⟩⟩⟩

/-- Claim C4's pair: equal-length documents differing only in the three
characters inside the quoted literal. -/
def stringDocA : Doc := mkDoc ["function foo()", "print(\"abc\")", "end"]

def stringDocB : Doc := mkDoc ["function foo()", "print(\"end\")", "end"]

def stringSym : DocSymbol := ⟨⟨⟨0, 0⟩, ⟨2, 3⟩⟩, ⟨⟨0, 9⟩, ⟨0, 12⟩⟩⟩

/-- Claim C6's document: `if a then … elseif b then … else … end`. -/
def elseifDoc : Doc :=
  mkDoc ["if a then", "  print(1)", "elseif b then", "  print(2)", "else",
    "  print(3)", "end"]

/-- `elseifDoc` truncated before its final `end`: no earlier token is
ever accepted as a terminator. -/
def elseifDocTrunc : Doc :=
  mkDoc ["if a then", "  print(1)", "elseif b then", "  print(2)", "else",
    "  print(3)"]

def elseifSym : DocSymbol := ⟨⟨⟨0, 0⟩, ⟨6, 3⟩⟩, ⟨⟨0, 0⟩, ⟨0, 2⟩⟩⟩

/-- Claim C8's document: an unterminated function. -/
def unterminatedDoc : Doc := mkDoc ["function f()", "  print(1)"]

def unterminatedSym : DocSymbol := ⟨⟨⟨0, 0⟩, ⟨1, 10⟩⟩, ⟨⟨0, 9⟩, ⟨0, 10⟩⟩⟩

/-- Claim C5's counterexample document: a parenthesis occurs between the
rough symbol's overall range start and its name range. -/
def parenBeforeNameDoc : Doc := mkDoc ["x=(1) function foo(a)", "end"]

def parenBeforeNameSym : DocSymbol := ⟨⟨⟨0, 0⟩, ⟨1, 3⟩⟩, ⟨⟨0, 15⟩, ⟨0, 18⟩⟩⟩

/-- Claim C5's quoted-literal family: the parameter list contains a
string literal of arbitrary content `s` (no quote, no backslash);
the matcher must skip it wholesale. -/
def quoteDoc (s : Chars) : Doc :=
  ⟨("function foo(\"".data ++ s ++ "\")".data) :: ["end".data]⟩

def quoteSym : DocSymbol := ⟨⟨⟨0, 0⟩, ⟨1, 3⟩⟩, ⟨⟨0, 9⟩, ⟨0, 12⟩⟩⟩

/-- Claim C5: a long-bracket literal containing `)` inside the
parameter list. -/
def bracketDoc : Doc := mkDoc ["function foo([[)]],a)", "end"]

/-- Parse-tree nodes for claim C3. -/
def whileInfo : LNode := ⟨"WhileStatement", (0, 30), none, none, none, []⟩

def assignInfo : LNode :=
  ⟨"AssignmentStatement", (0, 30), none, some (0, 3), some ("FunctionDeclaration", (6, 30)), []⟩

def assignFuncInfo : LNode := ⟨"FunctionDeclaration", (6, 30), none, none, none, []⟩

def assignAst : Ast := .node assignInfo [.node assignFuncInfo []]

/-- The single line `function foo("<s>")` of the quoted-literal family
`quoteDoc`. -/
def lineQ (s : Chars) : Chars := "function foo(\"".data ++ s ++ "\")".data

/-! # Helper lemmas -/

theorem findSub_none_drop {l pat : Chars} (h : findSub l pat = none) :
    ∀ k, findSub (l.drop k) pat = none := by
  intro k
  induction l generalizing k with
  | nil =>
    cases k <;> simpa using h
  | cons c rest ih =>
    cases k with
    | zero => simpa using h
    | succ k' =>
      rw [findSub] at h
      split at h
      · exact absurd h (Option.some_ne_none _)
      · simp only [Option.map_eq_none'] at h
        simpa using ih h k'

theorem findSub_bound {l pat : Chars} {k : Nat} (h : findSub l pat = some k) :
    k + pat.length ≤ l.length := by
  induction l generalizing k with
  | nil =>
    rw [findSub] at h
    split at h
    · rename_i hp
      simp only [Option.some_inj] at h
      simp only [List.isEmpty_iff] at hp
      subst hp
      omega
    · exact absurd h (by simp)
  | cons c rest ih =>
    rw [findSub] at h
    split at h
    · rename_i hp
      simp only [Option.some_inj] at h
      subst h
      have := List.IsPrefix.length_le ((List.isPrefixOf_iff_prefix).mp hp)
      simpa using this
    · simp only [Option.map_eq_some'] at h
      obtain ⟨k', hk', rfl⟩ := h
      have := ih hk'
      simp only [List.length_cons]
      omega

theorem findSub_none_of_not_mem {v : Chars} {c : Char} {p : Chars}
    (h : c ∉ v) : findSub v (c :: p) = none := by
  induction v with
  | nil => rfl
  | cons a rest ih =>
    rw [findSub]
    have ha : a ≠ c := fun hac => h (by simp [hac])
    have hrest : c ∉ rest := fun hr => h (List.mem_cons_of_mem _ hr)
    split
    · rename_i hp
      rw [List.isPrefixOf_iff_prefix, List.cons_prefix_cons] at hp
      exact absurd hp.1.symm ha
    · simp [ih hrest]

theorem findInDocGo_none {needle : Chars} {ls : List Chars}
    (h : ∀ l ∈ ls, findSub l needle = none) :
    ∀ ln ch, findInDocGo needle ls ln ch = none := by
  induction ls with
  | nil => intro ln ch; rfl
  | cons l rest ih =>
    intro ln ch
    rw [findInDocGo]
    have h1 : indexOfFrom l needle ch = none := by
      unfold indexOfFrom
      rw [findSub_none_drop (h l (by simp)) ch]
      rfl
    rw [h1]
    exact ih (fun x hx => h x (by simp [hx])) (ln + 1) 0

theorem stripGo_length : ∀ fuel s, (stripGo fuel s).length = s.length := by
  intro fuel
  induction fuel with
  | zero => intro s; rfl
  | succ f ih =>
    intro s
    rw [stripGo.eq_def]
    split
    · omega
    · rename_i fuel heq
      obtain rfl : f = fuel := by omega
      split
      · rfl
      · rename_i rest
        split
        · rename_i r2
          dsimp only
          split
          · rename_i r4 heqd
            split
            · rename_i k hfind
              have hb := findSub_bound hfind
              have hc : ((']' :: (List.replicate (List.takeWhile (fun x => x == '=') r2).length '=' ++ [']'])).length) = (List.takeWhile (fun x => x == '=') r2).length + 2 := by
                simp
              have hlen4 : r2.length - (r2.takeWhile (· == '=')).length = r4.length + 1 := by
                have := congrArg List.length heqd
                simp only [List.length_drop, List.length_cons] at this
                omega
              have hle : (r2.takeWhile (· == '=')).length ≤ r2.length :=
                (List.takeWhile_prefix _).length_le
              simp only [List.length_append, List.length_replicate, ih, List.length_drop,
                List.length_cons] at *
              omega
            · simp
          · have hq : ((('-' :: '-' :: '[' :: r2).drop 2).takeWhile (fun x => decide (x ≠ '\n'))).length ≤ ('[' :: r2).length := by
              simpa using (List.takeWhile_prefix (l := '[' :: r2) (fun x => decide (x ≠ '\n'))).length_le
            simp only [List.length_append, List.length_replicate, ih, List.length_drop,
              List.length_cons] at *
            omega
        · rename_i hne
          have hq : ((('-' :: '-' :: rest).drop 2).takeWhile (fun x => decide (x ≠ '\n'))).length ≤ rest.length := by
            simpa using (List.takeWhile_prefix (l := rest) (fun x => decide (x ≠ '\n'))).length_le
          simp only [List.length_append, List.length_replicate, ih, List.length_drop,
            List.length_cons] at *
          omega
      · rename_i c rest h1 h2
        simp [ih]

theorem stripLuaComments_length (s : Chars) :
    (stripLuaComments s).length = s.length := stripGo_length s.length s

theorem stripGo_blankOrSame :
    ∀ fuel s i, (stripGo fuel s).get? i = s.get? i ∨ (stripGo fuel s).get? i = some ' ' := by
  intro fuel
  induction fuel with
  | zero => intro s i; left; rfl
  | succ f ih =>
    intro s i
    rw [stripGo.eq_def]
    split
    · omega
    · rename_i fuel heq
      obtain rfl : f = fuel := by omega
      split
      · left; rfl
      · rename_i rest
        split
        · rename_i r2
          dsimp only
          split
          · rename_i r4 heqd
            split
            · rename_i k hfind
              by_cases hi : i < (List.replicate (4 + (List.takeWhile (fun x => x == '=') r2).length + k + ((']' : Char) :: (List.replicate (List.takeWhile (fun x => x == '=') r2).length '=' ++ [']'])).length) ' ').length
              · right
                rw [List.get?_append hi]
                simp only [List.length_replicate] at hi
                rw [List.get?_eq_getElem?, List.getElem?_replicate, if_pos (by omega)]
              · push_neg at hi
                rw [List.get?_append_right hi]
                simp only [List.length_replicate] at hi ⊢
                rcases ih (List.drop (4 + (List.takeWhile (fun x => x == '=') r2).length + k + ((']' : Char) :: (List.replicate (List.takeWhile (fun x => x == '=') r2).length '=' ++ [']'])).length) ('-' :: '-' :: '[' :: r2)) (i - (4 + (List.takeWhile (fun x => x == '=') r2).length + k + ((']' : Char) :: (List.replicate (List.takeWhile (fun x => x == '=') r2).length '=' ++ [']'])).length)) with h | h
                · left
                  rw [h, List.get?_drop]
                  congr 1
                  omega
                · right
                  rw [h]
            · by_cases hi : i < ('-' :: '-' :: '[' :: r2).length
              · right
                rw [List.get?_eq_getElem?, List.getElem?_replicate, if_pos (by omega)]
              · push_neg at hi
                left
                rw [List.get?_eq_none.mpr (by simpa using hi), List.get?_eq_none.mpr (by simpa using hi)]
          · by_cases hi : i < (List.replicate (2 + (List.takeWhile (fun x => decide (x ≠ '\n')) (List.drop 2 ('-' :: '-' :: '[' :: r2))).length) ' ').length
            · right
              rw [List.get?_append hi]
              simp only [List.length_replicate] at hi
              rw [List.get?_eq_getElem?, List.getElem?_replicate, if_pos (by omega)]
            · push_neg at hi
              rw [List.get?_append_right hi]
              simp only [List.length_replicate] at hi ⊢
              rcases ih (List.drop (2 + (List.takeWhile (fun x => decide (x ≠ '\n')) (List.drop 2 ('-' :: '-' :: '[' :: r2))).length) ('-' :: '-' :: '[' :: r2)) (i - (2 + (List.takeWhile (fun x => decide (x ≠ '\n')) (List.drop 2 ('-' :: '-' :: '[' :: r2))).length)) with h | h
              · left
                rw [h, List.get?_drop]
                congr 1
                omega
              · right
                rw [h]
        · rename_i hne
          by_cases hi : i < (List.replicate (2 + (List.takeWhile (fun x => decide (x ≠ '\n')) (List.drop 2 ('-' :: '-' :: rest))).length) ' ').length
          · right
            rw [List.get?_append hi]
            simp only [List.length_replicate] at hi
            rw [List.get?_eq_getElem?, List.getElem?_replicate, if_pos (by omega)]
          · push_neg at hi
            rw [List.get?_append_right hi]
            simp only [List.length_replicate] at hi ⊢
            rcases ih (List.drop (2 + (List.takeWhile (fun x => decide (x ≠ '\n')) (List.drop 2 ('-' :: '-' :: rest))).length) ('-' :: '-' :: rest)) (i - (2 + (List.takeWhile (fun x => decide (x ≠ '\n')) (List.drop 2 ('-' :: '-' :: rest))).length)) with h | h
            · left
              rw [h, List.get?_drop]
              congr 1
              omega
            · right
              rw [h]
      · rename_i s0 c rest hov
        cases i with
        | zero => left; rfl
        | succ j => simpa using ih rest j

theorem stripGo_cons_ne {c : Char} (hc : c ≠ '-') (f : Nat) (t : Chars) :
    stripGo (f + 1) (c :: t) = c :: stripGo f t := by
  rw [stripGo.eq_def]
  split
  · omega
  · rename_i fuel heq
    obtain rfl : f = fuel := by omega
    split
    · rename_i heq2; exact absurd heq2 (by simp)
    · rename_i rest heq2
      rw [List.cons.injEq] at heq2
      exact absurd heq2.1 hc
    · rename_i c2 rest h1 h2 heq2
      rw [List.cons.injEq] at heq2
      rw [heq2.1, heq2.2]

theorem strip_append {pfx : Chars} (h : ∀ c ∈ pfx, c ≠ '-') (t : Chars) :
    stripLuaComments (pfx ++ t) = pfx ++ stripLuaComments t := by
  induction pfx with
  | nil => simp
  | cons c p ih =>
    have hc : c ≠ '-' := h c (by simp)
    have hp : ∀ x ∈ p, x ≠ '-' := fun x hx => h x (by simp [hx])
    unfold stripLuaComments
    have hlen : (c :: (p ++ t)).length = (p ++ t).length + 1 := by simp
    rw [List.cons_append, hlen, stripGo_cons_ne hc]
    have h2 := ih hp
    unfold stripLuaComments at h2
    rw [h2]
    rfl

theorem strip_id {s : Chars} (h : ∀ c ∈ s, c ≠ '-') : stripLuaComments s = s := by
  have h2 := strip_append h []
  have h0 : stripLuaComments ([] : Chars) = [] := rfl
  rw [h0] at h2
  simpa using h2

theorem strip_unterminated {v : Chars} (h : ']' ∉ v) :
    stripLuaComments ("--[[".data ++ v) = List.replicate (v.length + 4) ' ' := by
  have hfind : findSub v ([']', ']'] : Chars) = none := findSub_none_of_not_mem h
  show stripGo ("--[[".data ++ v).length ('-' :: '-' :: '[' :: '[' :: v) = _
  have hlen : ("--[[".data ++ v).length = v.length + 4 := by
    have h4 : ("--[[".data : Chars).length = 4 := rfl
    simp only [List.length_append, h4]
    omega
  rw [hlen]
  have hstep : stripGo (v.length + 4) ('-' :: '-' :: '[' :: '[' :: v) =
      (match findSub v ([']', ']'] : Chars) with
        | some k =>
          List.replicate (4 + 0 + k + 2) ' ' ++
            stripGo (v.length + 3) (('-' :: '-' :: '[' :: '[' :: v).drop (4 + 0 + k + 2))
        | none => List.replicate ('-' :: '-' :: '[' :: '[' :: v : Chars).length ' ') := rfl
  rw [hstep, hfind]
  simp only [List.length_cons]

theorem joinLines_cons {l : Chars} {ls : List Chars} (h : ls ≠ []) :
    joinLines (l :: ls) = l ++ '\n' :: joinLines ls := by
  cases ls with
  | nil => exact absurd rfl h
  | cons a rest => rfl

theorem positionAtAux_cons {l : Chars} {ls : List Chars} (h : ls ≠ []) (ln off : Nat) :
    positionAtAux (l :: ls) ln off =
      if off ≤ l.length then ⟨ln, off⟩ else positionAtAux ls (ln + 1) (off - l.length - 1) := by
  cases ls with
  | nil => exact absurd rfl h
  | cons a rest => rfl

/-! ## Comment-mask lemmas (claim C7) -/

theorem closeTok_length (lv : Nat) : (closeTok lv).length = lv + 2 := by
  simp [closeTok]

theorem maskGo_nil : ∀ (f : Nat) (mode : MaskMode), maskGo f mode [] = [] := by
  intro f mode
  cases f with
  | zero => rfl
  | succ g => cases mode <;> rfl

theorem maskGo_fuel :
    ∀ (f1 f2 : Nat) (mode : MaskMode) (s : Chars),
      s.length ≤ f1 → s.length ≤ f2 → maskGo f1 mode s = maskGo f2 mode s := by
  intro f1
  induction f1 with
  | zero =>
    intro f2 mode s h1 _
    have : s = [] := List.length_eq_zero.mp (Nat.le_zero.mp h1)
    subst this
    rw [maskGo_nil, maskGo_nil]
  | succ f ih =>
    intro f2 mode s h1 h2
    cases f2 with
    | zero =>
      have : s = [] := List.length_eq_zero.mp (Nat.le_zero.mp h2)
      subst this
      rw [maskGo_nil, maskGo_nil]
    | succ g =>
      cases mode with
      | code =>
        rw [maskGo.eq_def]
        conv_rhs => rw [maskGo.eq_def]
        dsimp only
        split
        · rfl
        · rename_i rest
          simp only [List.length_cons] at h1 h2
          split
          · rename_i r2
            simp only [List.length_cons] at h1 h2
            split
            · rename_i r4 heqd
              exact congrArg (List.replicate _ true ++ ·) (ih g _ _
                (by simp only [List.length_drop, List.length_cons]; omega)
                (by simp only [List.length_drop, List.length_cons]; omega))
            · exact congrArg (fun t => true :: true :: t) (ih g _ _
                (by simp only [List.length_cons]; omega)
                (by simp only [List.length_cons]; omega))
          · exact congrArg (fun t => true :: true :: t) (ih g _ _ (by omega) (by omega))
        · rename_i c rest h1' h2'
          simp only [List.length_cons] at h1 h2
          exact congrArg (fun t => false :: t) (ih g _ _ (by omega) (by omega))
      | lineC =>
        cases s with
        | nil => rw [maskGo_nil, maskGo_nil]
        | cons c rest =>
          simp only [List.length_cons] at h1 h2
          rw [maskGo.eq_def]
          conv_rhs => rw [maskGo.eq_def]
          dsimp only
          by_cases hc : c = '\n'
          · simp only [if_pos hc]
            exact congrArg (fun t => false :: t) (ih g _ _ (by omega) (by omega))
          · simp only [if_neg hc]
            exact congrArg (fun t => true :: t) (ih g _ _ (by omega) (by omega))
      | blockC lv =>
        cases s with
        | nil => rw [maskGo_nil, maskGo_nil]
        | cons c rest =>
          simp only [List.length_cons] at h1 h2
          rw [maskGo.eq_def]
          conv_rhs => rw [maskGo.eq_def]
          dsimp only
          by_cases hp : (closeTok lv).isPrefixOf (c :: rest)
          · simp only [if_pos hp]
            exact congrArg (List.replicate _ true ++ ·) (ih g _ _
              (by simp only [List.length_drop, List.length_cons]; omega)
              (by simp only [List.length_drop, List.length_cons]; omega))
          · simp only [if_neg hp]
            exact congrArg (fun t => true :: t) (ih g _ _ (by omega) (by omega))

theorem applyMask_append {m1 m2 : List Bool} {s1 s2 : Chars}
    (h : m1.length = s1.length) :
    applyMask (m1 ++ m2) (s1 ++ s2) = applyMask m1 s1 ++ applyMask m2 s2 := by
  unfold applyMask
  induction m1 generalizing s1 with
  | nil =>
    have : s1 = [] := List.length_eq_zero.mp h.symm
    subst this
    rfl
  | cons b m ih =>
    cases s1 with
    | nil => simp at h
    | cons c s =>
      simp only [List.length_cons] at h
      simp only [List.cons_append, List.zipWith_cons_cons]
      exact congrArg (fun t => (if b then ' ' else c) :: t) (ih (by omega))

theorem applyMask_true : ∀ {n : Nat} {s : Chars}, s.length = n →
    applyMask (List.replicate n true) s = List.replicate n ' ' := by
  intro n
  induction n with
  | zero =>
    intro s h
    have : s = [] := List.length_eq_zero.mp h
    subst this
    rfl
  | succ k ih =>
    intro s h
    cases s with
    | nil => simp at h
    | cons c rest =>
      simp only [List.length_cons] at h
      simp only [List.replicate_succ, applyMask, List.zipWith_cons_cons, if_pos]
      exact congrArg (fun t => ' ' :: t) (ih (by omega))

theorem applyMask_false : ∀ (s : Chars),
    applyMask (List.replicate s.length false) s = s := by
  intro s
  induction s with
  | nil => rfl
  | cons c rest ih =>
    simp only [List.length_cons, List.replicate_succ, applyMask, List.zipWith_cons_cons,
      Bool.false_eq_true, if_neg, if_false]
    exact congrArg (fun t => c :: t) ih

theorem maskGo_lineC : ∀ (v : Chars),
    maskGo v.length .lineC v =
      List.replicate ((v.takeWhile (· ≠ '\n')).length) true ++
        maskGo (v.length - (v.takeWhile (· ≠ '\n')).length) .code
          (v.drop ((v.takeWhile (· ≠ '\n')).length)) := by
  intro v
  induction v with
  | nil => rfl
  | cons c rest ih =>
    by_cases hc : c = '\n'
    · subst hc
      have ht : List.takeWhile (fun x => decide (x ≠ '\n')) ('\n' :: rest) = [] := by
        simp [List.takeWhile_cons]
      rw [ht]
      rfl
    · have ht : List.takeWhile (fun x => decide (x ≠ '\n')) (c :: rest) =
          c :: List.takeWhile (fun x => decide (x ≠ '\n')) rest := by
        simp [List.takeWhile_cons, hc]
      rw [ht]
      simp only [List.length_cons, List.replicate_succ, List.cons_append,
        List.drop_succ_cons, Nat.succ_sub_succ]
      rw [maskGo.eq_def]
      dsimp only
      rw [if_neg hc, ih]
theorem maskGo_blockC : ∀ (v : Chars) (lv : Nat),
    maskGo v.length (.blockC lv) v =
      match findSub v (closeTok lv) with
      | some k => List.replicate (k + (lv + 2)) true ++
          maskGo (v.length - (k + (lv + 2))) .code (v.drop (k + (lv + 2)))
      | none => List.replicate v.length true := by
  intro v lv
  induction v with
  | nil =>
    have hf : findSub [] (closeTok lv) = none := by
      simp [findSub, closeTok]
    rw [hf]
    rfl
  | cons c rest ih =>
    by_cases hp : (closeTok lv).isPrefixOf (c :: rest) = true
    · have hf : findSub (c :: rest) (closeTok lv) = some 0 := by
        rw [findSub, if_pos hp]
      rw [hf]
      simp only [List.length_cons]
      rw [maskGo.eq_def]
      dsimp only
      rw [if_pos hp]
      have hle : lv + 2 ≤ rest.length + 1 := by
        have := List.IsPrefix.length_le (List.isPrefixOf_iff_prefix.mp hp)
        rw [closeTok_length] at this
        simpa using this
      simp only [Nat.zero_add]
      refine congrArg (fun t => List.replicate (lv + 2) true ++ t) ?_
      exact maskGo_fuel _ _ .code _
        (by simp only [List.length_drop, List.length_cons]; omega)
        (by simp only [List.length_drop, List.length_cons]; omega)
    · have hf : findSub (c :: rest) (closeTok lv) =
          (findSub rest (closeTok lv)).map (· + 1) := by
        rw [findSub, if_neg hp]
      rw [hf]
      simp only [List.length_cons]
      rw [maskGo.eq_def]
      dsimp only
      rw [if_neg hp, ih]
      cases hfs : findSub rest (closeTok lv) with
      | none =>
        simp only [Option.map_none', List.replicate_succ]
      | some k =>
        simp only [Option.map_some']
        have h1 : k + 1 + (lv + 2) = (k + (lv + 2)) + 1 := by omega
        rw [h1]
        simp only [List.replicate_succ, List.drop_succ_cons, Nat.succ_sub_succ,
          List.cons_append]

theorem maskGo_code_dd (f : Nat) (rest : Chars) :
    maskGo (f + 1) .code ('-' :: '-' :: rest) =
      match rest with
      | '[' :: r2 =>
        match r2.drop ((r2.takeWhile (· == '=')).length) with
        | '[' :: _ => List.replicate (4 + (r2.takeWhile (· == '=')).length) true ++
            maskGo f (.blockC ((r2.takeWhile (· == '=')).length))
              (('-' :: '-' :: '[' :: r2).drop (4 + (r2.takeWhile (· == '=')).length))
        | _ => true :: true :: maskGo f .lineC rest
      | _ => true :: true :: maskGo f .lineC rest := rfl

theorem maskGo_code_open (f : Nat) (r2 : Chars) :
    maskGo (f + 1) .code ('-' :: '-' :: '[' :: r2) =
      match r2.drop ((r2.takeWhile (· == '=')).length) with
      | '[' :: _ => List.replicate (4 + (r2.takeWhile (· == '=')).length) true ++
          maskGo f (.blockC ((r2.takeWhile (· == '=')).length))
            (('-' :: '-' :: '[' :: r2).drop (4 + (r2.takeWhile (· == '=')).length))
      | _ => true :: true :: maskGo f .lineC ('[' :: r2) := rfl

theorem maskGo_code_open2 (f : Nat) (r2 r4 : Chars)
    (heqd : r2.drop ((r2.takeWhile (· == '=')).length) = '[' :: r4) :
    maskGo (f + 1) .code ('-' :: '-' :: '[' :: r2) =
      List.replicate (4 + (r2.takeWhile (· == '=')).length) true ++
        maskGo f (.blockC ((r2.takeWhile (· == '=')).length))
          (('-' :: '-' :: '[' :: r2).drop (4 + (r2.takeWhile (· == '=')).length)) := by
  rw [maskGo_code_open, heqd]
  rfl

theorem maskGo_code_line2 (f : Nat) (r2 : Chars)
    (hne : ∀ r4, r2.drop ((r2.takeWhile (· == '=')).length) = '[' :: r4 → False) :
    maskGo (f + 1) .code ('-' :: '-' :: '[' :: r2) =
      true :: true :: maskGo f .lineC ('[' :: r2) := by
  rw [maskGo_code_open]
  split
  · rename_i r4 heqd
    exact (hne r4 heqd).elim
  · rfl

theorem maskGo_code_ddline (f : Nat) (rest : Chars)
    (hne : ∀ r2, rest = '[' :: r2 → False) :
    maskGo (f + 1) .code ('-' :: '-' :: rest) = true :: true :: maskGo f .lineC rest := by
  rw [maskGo_code_dd]
  split
  · exact (hne _ rfl).elim
  · rfl

theorem maskGo_code_cons (f : Nat) (c : Char) (rest : Chars)
    (hcc : ∀ r, c = '-' → rest = '-' :: r → False) :
    maskGo (f + 1) .code (c :: rest) = false :: maskGo f .code rest := by
  rw [maskGo.eq_def]
  dsimp only
  split
  · rename_i heq
    simp at heq
  · rename_i r' heqs
    exact (hcc r' (List.cons.inj heqs).1 (List.cons.inj heqs).2).elim
  · rename_i c' rest' heq
    obtain ⟨h1, h2⟩ := List.cons.inj heq
    rw [h2]

theorem maskGo_blockC_some (v : Chars) (lv k : Nat)
    (h : findSub v (closeTok lv) = some k) :
    maskGo v.length (.blockC lv) v =
      List.replicate (k + (lv + 2)) true ++
        maskGo (v.length - (k + (lv + 2))) .code (v.drop (k + (lv + 2))) := by
  rw [maskGo_blockC, h]

theorem maskGo_blockC_none (v : Chars) (lv : Nat)
    (h : findSub v (closeTok lv) = none) :
    maskGo v.length (.blockC lv) v = List.replicate v.length true := by
  rw [maskGo_blockC, h]

theorem maskGo_length : ∀ (f : Nat) (mode : MaskMode) (s : Chars),
    (maskGo f mode s).length = s.length := by
  intro f
  induction f with
  | zero => intro mode s; simp [maskGo]
  | succ g ih =>
    intro mode s
    cases mode with
    | code =>
      rw [maskGo.eq_def]
      dsimp only
      split
      · rfl
      · rename_i rest
        split
        · rename_i r2
          split
          · rename_i r4 heqd
            have hd : (List.takeWhile (fun x => x == '=') r2).length + 1 ≤ r2.length := by
              have := congrArg List.length heqd
              simp only [List.length_drop, List.length_cons] at this
              have hle : (List.takeWhile (fun x => x == '=') r2).length ≤ r2.length :=
                (List.takeWhile_prefix _).length_le
              omega
            simp only [List.length_append, List.length_replicate, ih, List.length_drop,
              List.length_cons]
            omega
          · simp only [List.length_cons, ih]
        · simp only [List.length_cons, ih]
      · rename_i c rest h1 h2
        simp only [List.length_cons, ih]
    | lineC =>
      cases s with
      | nil => rw [maskGo_nil]; rfl
      | cons c rest =>
        rw [maskGo.eq_def]
        dsimp only
        by_cases hc : c = '\n'
        · rw [if_pos hc]
          simp only [List.length_cons, ih]
        · rw [if_neg hc]
          simp only [List.length_cons, ih]
    | blockC lv =>
      cases s with
      | nil => rw [maskGo_nil]; rfl
      | cons c rest =>
        rw [maskGo.eq_def]
        dsimp only
        by_cases hp : (closeTok lv).isPrefixOf (c :: rest) = true
        · rw [if_pos hp]
          have hle : lv + 2 ≤ rest.length + 1 := by
            have := List.IsPrefix.length_le (List.isPrefixOf_iff_prefix.mp hp)
            rw [closeTok_length] at this
            simpa using this
          simp only [List.length_append, List.length_replicate, ih, List.length_drop,
            List.length_cons]
          omega
        · rw [if_neg hp]
          simp only [List.length_cons, ih]

theorem commentMask_length (s : Chars) : (commentMask s).length = s.length :=
  maskGo_length s.length .code s

theorem drop_cons3 : ∀ (n : Nat) (a b c : Char) (l : Chars),
    (a :: b :: c :: l).drop (n + 3) = l.drop n := by
  intro n a b c l
  rfl

theorem drop_two (a b : Char) (l : Chars) : List.drop 2 (a :: b :: l) = l := rfl

theorem drop_cons2 (n : Nat) (a b : Char) (l : Chars) :
    (a :: b :: l).drop (n + 2) = l.drop n := rfl

theorem applyMask_cons (b : Bool) (m : List Bool) (c : Char) (s : Chars) :
    applyMask (b :: m) (c :: s) = (if b then ' ' else c) :: applyMask m s := rfl

theorem applyMask_cons_true (m : List Bool) (c : Char) (s : Chars) :
    applyMask (true :: m) (c :: s) = ' ' :: applyMask m s := rfl

theorem applyMask_cons_false (m : List Bool) (c : Char) (s : Chars) :
    applyMask (false :: m) (c :: s) = c :: applyMask m s := rfl

theorem applyMask_replicate_head : ∀ (n : Nat) (m2 : List Bool) (s : Chars), n ≤ s.length →
    applyMask (List.replicate n true ++ m2) s =
      List.replicate n ' ' ++ applyMask m2 (s.drop n) := by
  intro n
  induction n with
  | zero =>
    intro m2 s h
    simp only [List.replicate_zero, List.nil_append, List.drop_zero]
  | succ k ih =>
    intro m2 s h
    cases s with
    | nil => simp at h
    | cons c rest =>
      simp only [List.length_cons] at h
      simp only [List.replicate_succ, List.cons_append, applyMask_cons_true,
        List.drop_succ_cons]
      exact congrArg (fun t => ' ' :: t) (ih m2 rest (by omega))

theorem stripLine_eq (f : Nat) (rest : Chars)
    (hlen : rest.length ≤ f)
    (ih : ∀ t : Chars, t.length ≤ f →
      stripGo f t = applyMask (maskGo t.length .code t) t) :
    List.replicate (2 + (rest.takeWhile (· ≠ '\n')).length) ' ' ++
        stripGo f (rest.drop ((rest.takeWhile (· ≠ '\n')).length)) =
      applyMask (true :: true :: maskGo (rest.length + 1) .lineC rest)
        ('-' :: '-' :: rest) := by
  have hm : (rest.takeWhile (· ≠ '\n')).length ≤ rest.length :=
    (List.takeWhile_prefix _).length_le
  rw [applyMask_cons_true, applyMask_cons_true]
  rw [maskGo_fuel (rest.length + 1) rest.length .lineC rest (by omega) (by omega)]
  rw [maskGo_lineC rest]
  rw [applyMask_replicate_head _ _ _ (by omega)]
  rw [← List.length_drop]
  rw [← ih (rest.drop ((rest.takeWhile (· ≠ '\n')).length))
    (by simp only [List.length_drop]; omega)]
  rw [show (2 + (rest.takeWhile (· ≠ '\n')).length) =
    ((rest.takeWhile (· ≠ '\n')).length + 1) + 1 from by omega]
  rw [List.replicate_succ, List.replicate_succ]
  simp only [List.cons_append]

theorem stripGo_eq_mask : ∀ (fuel : Nat) (s : Chars), s.length ≤ fuel →
    stripGo fuel s = applyMask (maskGo s.length .code s) s := by
  intro fuel
  induction fuel with
  | zero =>
    intro s h
    have : s = [] := List.length_eq_zero.mp (Nat.le_zero.mp h)
    subst this
    rfl
  | succ f ih =>
    intro s hs
    rw [stripGo.eq_def]
    dsimp only
    split
    · rfl
    · rename_i rest
      split
      · rename_i r2
        split
        · rename_i r4 heqd
          simp only [List.length_cons] at hs ⊢
          have hle : (List.takeWhile (fun x => x == '=') r2).length ≤ r2.length :=
            (List.takeWhile_prefix _).length_le
          have hlr : r2.length = (List.takeWhile (fun x => x == '=') r2).length + 1 + r4.length := by
            have hl := congrArg List.length heqd
            simp only [List.length_drop, List.length_cons] at hl
            omega
          have hr4 : r2.drop ((List.takeWhile (fun x => x == '=') r2).length + 1) = r4 := by
            rw [← List.drop_drop, heqd]
            rfl
          have hdrop4 : List.drop (4 + (List.takeWhile (fun x => x == '=') r2).length)
              ('-' :: '-' :: '[' :: r2) = r4 := by
            rw [show 4 + (List.takeWhile (fun x => x == '=') r2).length
                = ((List.takeWhile (fun x => x == '=') r2).length + 1) + 3 from by omega]
            rw [drop_cons3, hr4]
          split
          · rename_i k hfind
            rw [show (List.replicate (List.takeWhile (fun x => x == '=') r2).length '=' ++ ([']'] : Chars)).length + 1
                = (List.takeWhile (fun x => x == '=') r2).length + 2 from by simp]
            have hb2 : k + ((List.takeWhile (fun x => x == '=') r2).length + 2) ≤ r4.length := by
              have hb := findSub_bound hfind
              simp only [List.length_cons, List.length_append, List.length_replicate] at hb
              omega
            have hdropC : List.drop
                (4 + (List.takeWhile (fun x => x == '=') r2).length + k + ((List.takeWhile (fun x => x == '=') r2).length + 2)) ('-' :: '-' :: '[' :: r2)
                = r4.drop (k + ((List.takeWhile (fun x => x == '=') r2).length + 2)) := by
              rw [show 4 + (List.takeWhile (fun x => x == '=') r2).length + k + ((List.takeWhile (fun x => x == '=') r2).length + 2)
                  = (((List.takeWhile (fun x => x == '=') r2).length + 1) + (k + ((List.takeWhile (fun x => x == '=') r2).length + 2))) + 3 from by omega]
              rw [drop_cons3, ← List.drop_drop, hr4]
            rw [hdropC]
            rw [maskGo_code_open2 _ _ _ heqd, hdrop4]
            rw [maskGo_fuel (r2.length + 1 + 1) r4.length (.blockC _) r4 (by omega) (by omega)]
            have hfindC : findSub r4 (closeTok (List.takeWhile (fun x => x == '=') r2).length) = some k := hfind
            rw [maskGo_blockC_some r4 _ k hfindC]
            rw [← List.append_assoc, ← List.replicate_add]
            rw [applyMask_replicate_head _ _ _ (by simp only [List.length_cons]; omega)]
            have hdropN : List.drop ((4 + (List.takeWhile (fun x => x == '=') r2).length) + (k + ((List.takeWhile (fun x => x == '=') r2).length + 2)))
                ('-' :: '-' :: '[' :: r2) = r4.drop (k + ((List.takeWhile (fun x => x == '=') r2).length + 2)) := by
              rw [show (4 + (List.takeWhile (fun x => x == '=') r2).length) + (k + ((List.takeWhile (fun x => x == '=') r2).length + 2))
                  = (((List.takeWhile (fun x => x == '=') r2).length + 1) + (k + ((List.takeWhile (fun x => x == '=') r2).length + 2))) + 3 from by omega]
              rw [drop_cons3, ← List.drop_drop, hr4]
            rw [hdropN]
            rw [← List.length_drop]
            rw [← ih (r4.drop (k + ((List.takeWhile (fun x => x == '=') r2).length + 2))) (by simp only [List.length_drop]; omega)]
            rw [show 4 + (List.takeWhile (fun x => x == '=') r2).length + k + ((List.takeWhile (fun x => x == '=') r2).length + 2)
                = (4 + (List.takeWhile (fun x => x == '=') r2).length) + (k + ((List.takeWhile (fun x => x == '=') r2).length + 2)) from by omega]
          · rename_i hfind
            rw [maskGo_code_open2 _ _ _ heqd, hdrop4]
            rw [maskGo_fuel (r2.length + 1 + 1) r4.length (.blockC _) r4 (by omega) (by omega)]
            have hfindC : findSub r4 (closeTok (List.takeWhile (fun x => x == '=') r2).length) = none := hfind
            rw [maskGo_blockC_none r4 _ hfindC]
            rw [← List.replicate_add]
            rw [applyMask_true (by simp only [List.length_cons]; omega)]
            rw [show r2.length + 1 + 1 + 1
                = (4 + (List.takeWhile (fun x => x == '=') r2).length) + r4.length from by omega]
        · rename_i hne
          simp only [List.length_cons] at hs ⊢
          have hdr : ('-' :: '-' :: '[' :: r2).drop
              (2 + (List.takeWhile (fun x => decide (x ≠ '\n')) (List.drop 2 ('-' :: '-' :: '[' :: r2))).length) =
              ('[' :: r2).drop ((List.takeWhile (fun x => decide (x ≠ '\n')) ('[' :: r2)).length) := by
            rw [drop_two]
            rw [show (2 + (List.takeWhile (fun x => decide (x ≠ '\n')) ('[' :: r2)).length)
              = ((List.takeWhile (fun x => decide (x ≠ '\n')) ('[' :: r2)).length) + 2 from by omega]
            rw [drop_cons2]
          rw [hdr, drop_two]
          rw [maskGo_code_line2 _ _ hne]
          have hre := stripLine_eq f ('[' :: r2) (by simp only [List.length_cons]; omega) ih
          simp only [List.length_cons] at hre
          exact hre
      · rename_i hne
        simp only [List.length_cons] at hs ⊢
        have hdr : ('-' :: '-' :: rest).drop
            (2 + (List.takeWhile (fun x => decide (x ≠ '\n')) (List.drop 2 ('-' :: '-' :: rest))).length) =
            rest.drop ((List.takeWhile (fun x => decide (x ≠ '\n')) rest).length) := by
          rw [drop_two]
          rw [show (2 + (List.takeWhile (fun x => decide (x ≠ '\n')) rest).length)
            = ((List.takeWhile (fun x => decide (x ≠ '\n')) rest).length) + 2 from by omega]
          rw [drop_cons2]
        rw [hdr, drop_two]
        rw [maskGo_code_ddline _ _ hne]
        exact stripLine_eq f rest (by omega) ih
    · rename_i x0 c rest hcc
      simp only [List.length_cons] at hs ⊢
      rw [maskGo_code_cons _ _ _ hcc]
      rw [applyMask_cons_false]
      exact congrArg (fun t => c :: t) (ih rest (by omega))

theorem strip_eq_mask (s : Chars) :
    stripLuaComments s = applyMask (commentMask s) s :=
  stripGo_eq_mask s.length s (Nat.le_refl _)

theorem applyMask_getD : ∀ (m : List Bool) (s : Chars) (i : Nat), m.length = s.length →
    (applyMask m s).getD i ' ' = if m.getD i false then ' ' else s.getD i ' ' := by
  intro m
  induction m with
  | nil =>
    intro s i h
    have : s = [] := List.length_eq_zero.mp h.symm
    subst this
    simp [applyMask]
  | cons b m ih =>
    intro s i h
    cases s with
    | nil => simp at h
    | cons c rest =>
      simp only [List.length_cons] at h
      rw [applyMask_cons]
      cases i with
      | zero => simp only [List.getD_cons_zero]
      | succ j =>
        simp only [List.getD_cons_succ]
        exact ih rest j (by omega)

theorem strip_getD (s : Chars) (i : Nat) :
    (stripLuaComments s).getD i ' ' =
      if (commentMask s).getD i false then ' ' else s.getD i ' ' := by
  rw [strip_eq_mask]
  exact applyMask_getD _ _ _ (commentMask_length s)

/-! # Claim theorems -/

/-- C7: `stripLuaComments` replaces exactly the comment characters by
blanks and leaves every other character unchanged: for every input the
result equals the input with the claim-side comment classification
`commentMask` applied (a streaming lexer marking single-line `--`
comments to end of line and level-matched long-bracket block comments,
delimiters included, unterminated comments to end of file), pointwise at
every index the output character is a blank where the mask marks a
comment character and the input character elsewhere, the length (of both
the output and the mask) is preserved, an unterminated block comment
blanks everything to the end of the file, and the concrete example
blanks exactly its comment characters; the Lean model is a total
function, matching the never-raises contract. -/
theorem stripLuaComments_contract :
    (∀ s : Chars, stripLuaComments s = applyMask (commentMask s) s) ∧
    (∀ s : Chars,
      (stripLuaComments s).length = s.length ∧ (commentMask s).length = s.length) ∧
    (∀ (s : Chars) (i : Nat),
      (stripLuaComments s).getD i ' ' =
        if (commentMask s).getD i false then ' ' else s.getD i ' ') ∧
    (∀ v : Chars, ']' ∉ v →
      stripLuaComments ("--[[".data ++ v) = List.replicate (v.length + 4) ' ') ∧
    stripLuaComments "a = 1 -- hi\nb--[[x\ny]]c".data = "a = 1      \nb         c".data ∧
    commentMask "a = 1 -- hi\nb--[[x\ny]]c".data =
      List.replicate 6 false ++ (List.replicate 5 true ++ (false :: false ::
        (List.replicate 9 true ++ [false]))) :=
  ⟨strip_eq_mask,
   fun s => ⟨stripLuaComments_length s, commentMask_length s⟩,
   strip_getD,
   fun _ hv => strip_unterminated hv,
   by decide, by decide⟩

/-- Witness for C7: the unterminated-comment clause applied at the
concrete input `--[[ab\ncd`. -/
theorem stripLuaComments_contract_witness :
    (']' ∉ ("ab\ncd".data : Chars)) ∧
    stripLuaComments ("--[[".data ++ "ab\ncd".data) = List.replicate 9 ' ' :=
  ⟨by decide, by
    have h := stripLuaComments_contract.2.2.2.1 "ab\ncd".data (by decide)
    simpa using h⟩

/-- C9: `provideOutlineForRange` signals "not implemented" for every
document and range (whatever the external symbols-in-range collaborator
returned), and never returns a result — in particular never an empty
list. -/
theorem provideOutlineForRange_notImplemented :
    ∀ (α : Type) (symbolsInRange : List α) (d : Doc) (r : Rng),
      provideOutlineForRange symbolsInRange d r =
        .error "outlines for ranges are not yet implemented" ∧
      ∀ l : List α, provideOutlineForRange symbolsInRange d r ≠ .ok l :=
  fun _ _ _ _ => ⟨rfl, fun _ h => Except.noConfusion h⟩

/-- C10: `stripLuaComments` blanks the newline characters inside a
multi-line block comment: on `a--[[x\ny]]b` the whole comment becomes a
run of spaces, the output has strictly fewer newlines than the input,
and the length (hence absolute offsets) is preserved. -/
theorem strip_blanks_newlines :
    stripLuaComments "a--[[x\ny]]b".data = "a         b".data ∧
    (stripLuaComments "a--[[x\ny]]b".data).count '\n' <
      ("a--[[x\ny]]b".data).count '\n' ∧
    (stripLuaComments "a--[[x\ny]]b".data).length = ("a--[[x\ny]]b".data).length := by
  decide

/-- C6: `else`/`elseif` never open a nesting level in the body-end scan:
a line `elseif b then` leaves the depth unchanged (the word-bounded
`if` regex does not match inside `elseif`), a line `else if b then`
leaves it unchanged (an `if` preceded by `else` on the same line is not
counted), and the document `if a then … elseif b then … else … end`
resolves with the single accepted terminator at its final `end` —
truncating the document before that `end` makes resolution fail, so no
earlier token is accepted. -/
theorem elseif_not_opening :
    (∀ f d ln : Nat,
      lineRounds "elseif b then".data "elseif b then".data 0 ln [] (f + 1) d KwIdx.zero
        = .cont d) ∧
    (∀ f d ln : Nat,
      lineRounds "else if b then".data "else if b then".data 0 ln [] (f + 2) d KwIdx.zero
        = .cont d) ∧
    resolveHeuristic elseifDoc elseifSym = .ok ⟨⟨0, 0⟩, ⟨1, 9⟩⟩ ⟨⟨2, 0⟩, ⟨6, 3⟩⟩ ∧
    resolveHeuristic elseifDocTrunc elseifSym = .err .bodyUnresolvable :=
  ⟨fun _ _ _ => rfl, fun _ _ _ => rfl, by decide, by decide⟩

/-- C3 counterexample: a `WhileStatement` node whose span contains the
selection offset is not accepted by `visit` (contradicting the claim's
"exactly when its kind is one of … while …"), and for an
assignment-to-function the node found by `visit` is the inner
`FunctionDeclaration`, not the `AssignmentStatement`, so the
assignment-specific head/body dispatch is not reached. -/
theorem visit_while_not_candidate :
    visitAccepts whileInfo 5 = false ∧ claimCandidate whileInfo 5 = true ∧
    visitFold 5 (.node whileInfo []) none = none ∧
    visitFold 10 assignAst none = some assignFuncInfo ∧
    assignFuncInfo.ntype ≠ "AssignmentStatement" := by decide

/-- C3 amended: a node is accepted exactly when its span contains the
offset and its type is one of `FunctionDeclaration`, `FunctionStatement`,
`ForNumericStatement`, `ForGenericStatement`, `IfStatement`,
`RepeatStatement`; `WhileStatement` and `AssignmentStatement` are not in
that list, so while-loops and assignments are never candidates. -/
theorem visit_candidate_characterization :
    (∀ (info : LNode) (off : Nat),
      visitAccepts info off =
        (decide (info.nrange.1 ≤ off) && decide (off ≤ info.nrange.2)
          && visitCandidateTypes.contains info.ntype)) ∧
    visitCandidateTypes.contains "WhileStatement" = false ∧
    visitCandidateTypes.contains "AssignmentStatement" = false :=
  ⟨fun info off => by
    simp only [visitAccepts, visitCandidateTypes, List.contains_cons, List.contains_nil,
      Bool.or_false, Bool.or_assoc],
   by decide, by decide⟩

/-- C1 counterexample: three documents on which resolution does not
return the construct's own terminator. In
`function f()\n  if x then y() end\nend` the function properly nests an
`if … end`, yet resolution fails with the body-unresolvable error
instead of returning the function's own `end` on the last line: in the
scanning loop's first round the `end` regex consumes the inner `end`
while the earlier `if` is processed, so the depth count never returns to
zero at an accepted terminator. Separate lines do not suffice either:
with every opener and terminator on its own line, an outermost `end`
indented unlike the head line is rejected and resolution fails
(`misindentedDoc`), and an `end` inside a quoted string literal at the
head line's indentation is accepted as the terminator (`stringEndDoc`:
the accepted body stop `(3,8)` ends at the string content — offset 36 of
the text lies inside a literal region — not at the construct's own `end`
on the final line 4 of the five-line document). -/
theorem nested_one_line_fails :
    (resolveBodyScan nestOneLineDoc nestOneLineSym = some .notFound ∧
      resolveHeuristic nestOneLineDoc nestOneLineSym = .err .bodyUnresolvable) ∧
    resolveHeuristic misindentedDoc misindentedSym = .err .bodyUnresolvable ∧
    (resolveHeuristic stringEndDoc stringEndSym =
        .ok ⟨⟨0, 9⟩, ⟨0, 11⟩⟩ ⟨⟨1, 0⟩, ⟨3, 8⟩⟩ ∧
      insideLiteral stringEndDoc.getText 36 = true ∧
      stringEndDoc.lineCount = 5) := by decide

/-- C2 counterexample: on spec scenario 1 the resolution succeeds with
`headRange.end = (0,16)` (at the closing parenthesis) and
`bodyRange.start = (1,0)`, although the remainder of line 0 after column
16 is `)` — not blank — so the documented whitespace adjustment does not
apply and the claim `headRange.end = bodyRange.start` fails: the code
also skips the closing parenthesis itself. -/
theorem head_body_gap :
    resolveHeuristic scenarioOneDoc scenarioOneSym =
      .ok ⟨⟨0, 9⟩, ⟨0, 16⟩⟩ ⟨⟨1, 0⟩, ⟨2, 3⟩⟩ ∧
    (⟨1, 0⟩ : Pos) ≠ (⟨0, 16⟩ : Pos) ∧
    ¬ ((scenarioOneDoc.lineAt 0).drop 16).all jsSpace := by decide

/-- C4 counterexample: two equal-length documents that differ only in the
three characters inside a quoted string literal resolve to different
body ranges — the body-end scan counts the literal text `end` inside the
string and accepts it as the terminator. -/
theorem string_interference :
    stringDocA.getText.length = stringDocB.getText.length ∧
    ((List.range 33).all (fun i =>
      stringDocA.getText.getD i ' ' == stringDocB.getText.getD i ' '
        || (insideLiteral stringDocA.getText i && insideLiteral stringDocB.getText i)))
      = true ∧
    resolveHeuristic stringDocA stringSym = .ok ⟨⟨0, 9⟩, ⟨0, 13⟩⟩ ⟨⟨1, 0⟩, ⟨2, 3⟩⟩ ∧
    resolveHeuristic stringDocB stringSym = .ok ⟨⟨0, 9⟩, ⟨0, 13⟩⟩ ⟨⟨1, 0⟩, ⟨1, 10⟩⟩ ∧
    resolveHeuristic stringDocA stringSym ≠ resolveHeuristic stringDocB stringSym := by
  decide

/-- C5 counterexample: the code searches for the first `(` from the
rough symbol's overall range start (`docSymbol.range.start`), not from
the selection range's end as the claim states: on
`x=(1) function foo(a)` with the name `foo`, the code finds the `(` at
offset 2 and matches its `)` at column 4, while the first `(` at or
after the name end is at offset 18. -/
theorem paren_search_start_mismatch :
    strategyOneParenIdx parenBeforeNameDoc parenBeforeNameSym = some 2 ∧
    claimFiveParenIdx parenBeforeNameDoc parenBeforeNameSym = some 18 ∧
    strategyOneScan parenBeforeNameDoc parenBeforeNameSym = .found 0 4 := by decide

/-- C8: whenever the body-end scan reaches the end of the document
without an accepted depth-zero, indentation-matching terminator, the
resolution call returns the body-unresolvable error (the thrown
`Could not find matching end keyword` error) and no other result. -/
theorem body_unresolvable_on_scan_failure :
    ∀ (d : Doc) (sym : DocSymbol),
      resolveBodyScan d sym = some .notFound →
      resolveHeuristic d sym = .err .bodyUnresolvable := by
  intro d sym h
  unfold resolveBodyScan at h
  unfold resolveHeuristic
  cases hh : headEndSearch d sym with
  | error e =>
    rw [hh] at h
    exact absurd h (by simp)
  | ok he =>
    rw [hh] at h
    simp only [Option.some.injEq] at h
    dsimp only
    rw [h]

/-- Witness for C8: the claim's concrete unterminated function
`function f()\n  print(1)`. -/
theorem body_unresolvable_on_scan_failure_witness :
    resolveBodyScan unterminatedDoc unterminatedSym = some .notFound ∧
    resolveHeuristic unterminatedDoc unterminatedSym = .err .bodyUnresolvable :=
  ⟨by decide, body_unresolvable_on_scan_failure _ _ (by decide)⟩

theorem structCompute_bodyStart_eq (src : Chars) (node : LNode) (sel : Nat) :
    (structCompute src node sel).bodyStartIdx = (structCompute src node sel).headEndIdx := by
  unfold structCompute
  repeat' (first | rfl | split | dsimp only)

/-- C2 amended: the published body start is obtained from the published
head end by the closing-parenthesis skip followed by the whitespace
adjustment (`bodyStartAdjust`) on the heuristic route, and equals the
head end exactly on the structural route (every dispatch branch sets
`bodyStartIdx := headEndIdx`). -/
theorem head_body_adjacency :
    (∀ (d : Doc) (sym : DocSymbol) (h b : Rng),
      resolveHeuristic d sym = .ok h b → b.start = bodyStartAdjust d h.stop) ∧
    (∀ (d : Doc) (node : LNode) (sel : Nat),
      (structResolve d node sel).1.stop = (structResolve d node sel).2.start) := by
  constructor
  · intro d sym h b hr
    unfold resolveHeuristic at hr
    split at hr
    · exact absurd hr (by simp)
    · rename_i he heq
      dsimp only at hr
      split at hr
      · rename_i el ec hscan
        rw [RRes.ok.injEq] at hr
        rw [← hr.1, ← hr.2]
      · exact absurd hr (by simp)
      · exact absurd hr (by simp)
  · intro d node sel
    unfold structResolve
    dsimp only
    rw [structCompute_bodyStart_eq]

/-- Witness for C2: the amended relationship instantiated on spec
scenario 1, where the head ends at the closing parenthesis. -/
theorem head_body_adjacency_witness :
    resolveHeuristic scenarioOneDoc scenarioOneSym =
      .ok ⟨⟨0, 9⟩, ⟨0, 16⟩⟩ ⟨⟨1, 0⟩, ⟨2, 3⟩⟩ ∧
    (⟨1, 0⟩ : Pos) = bodyStartAdjust scenarioOneDoc ⟨0, 16⟩ :=
  ⟨by decide,
    head_body_adjacency.1 scenarioOneDoc scenarioOneSym ⟨⟨0, 9⟩, ⟨0, 16⟩⟩ ⟨⟨1, 0⟩, ⟨2, 3⟩⟩
      (by decide)⟩

theorem skipQuoteAux_clean {q : Char} :
    ∀ (s t : Chars), (∀ c ∈ s, ¬(c == q) ∧ ¬(c == '\\')) →
      skipQuoteAux q (s ++ q :: t) = s.length := by
  intro s
  induction s with
  | nil =>
    intro t hcl
    cases t with
    | nil => simp [skipQuoteAux]
    | cons a r => simp [skipQuoteAux]
  | cons c s2 ih =>
    intro t hcl
    have hc1 : (c == q) = false := by
      have := (hcl c (by simp)).1
      simpa using this
    have hc2 : (c == '\\') = false := by
      have := (hcl c (by simp)).2
      simpa using this
    have hs2 : ∀ x ∈ s2, ¬(x == q) ∧ ¬(x == '\\') := fun x hx => hcl x (by simp [hx])
    cases s2 with
    | nil =>
      cases t with
      | nil => simp [skipQuoteAux, hc1, hc2]
      | cons a r => simp [skipQuoteAux, hc1, hc2]
    | cons d s3 =>
      have := ih t hs2
      simp only [List.cons_append] at this ⊢
      rw [skipQuoteAux]
      simp only [hc1, hc2, Bool.false_eq_true, if_false]
      rw [this]
      simp
      omega



theorem lineQ_length (s : Chars) : (lineQ s).length = s.length + 16 := by
  have h14 : ("function foo(\"".data : Chars).length = 14 := rfl
  have h2 : ("\")".data : Chars).length = 2 := rfl
  simp only [lineQ, List.length_append, h14, h2]
  omega

theorem lineQ_getD12 (s : Chars) : (lineQ s).getD 12 ' ' = '(' := by
  unfold lineQ
  rw [List.append_assoc, List.getD_append _ _ _ 12 (by decide)]
  rfl

theorem lineQ_longOpen12 (s : Chars) : longOpenEq (lineQ s) 12 = none := by
  unfold lineQ longOpenEq
  rw [List.append_assoc, List.drop_append_of_le_length (by decide)]
  rfl

theorem lineQ_getD13 (s : Chars) : (lineQ s).getD 13 ' ' = '"' := by
  unfold lineQ
  rw [List.append_assoc, List.getD_append _ _ _ 13 (by decide)]
  rfl

theorem lineQ_drop14 (s : Chars) : (lineQ s).drop 14 = s ++ "\")".data := by
  unfold lineQ
  rw [List.append_assoc]
  have h : (14 : Nat) = ("function foo(\"".data : Chars).length := rfl
  rw [h, List.drop_left]

theorem lineQ_getD_last (s : Chars) : (lineQ s).getD (s.length + 15) ' ' = ')' := by
  unfold lineQ
  have hl : (("function foo(\"".data : Chars) ++ s).length = s.length + 14 := by
    simp
    try omega
  rw [List.getD_append_right _ _ _ _ (by omega)]
  rw [hl]
  have h1 : s.length + 15 - (s.length + 14) = 1 := by omega
  rw [h1]
  rfl

theorem lineQ_longOpen_last (s : Chars) : longOpenEq (lineQ s) (s.length + 15) = none := by
  unfold lineQ longOpenEq
  have hl : s.length + 15 = (("function foo(\"".data : Chars) ++ s).length + 1 := by
    simp
    try omega
  rw [hl, List.drop_append]
  rfl



theorem parenScanGo_step_open {d : Doc} {f ln i depth : Nat} {lt : Chars}
    (hi : i < lt.length) (hch : lt.getD i ' ' = '(')
    (hlong : longOpenEq lt i = none) :
    parenScanGo d (f + 1) ln i depth lt = parenScanGo d f ln (i + 1) (depth + 1) lt := by
  rw [parenScanGo, if_pos hi]
  dsimp only
  rw [hch, hlong]
  rfl

theorem parenScanGo_step_close_found {d : Doc} {f ln i depth : Nat} {lt : Chars}
    (hi : i < lt.length) (hch : lt.getD i ' ' = ')')
    (hlong : longOpenEq lt i = none) (hd : depth ≤ 1) :
    parenScanGo d (f + 1) ln i depth lt = .found ln i := by
  rw [parenScanGo, if_pos hi]
  dsimp only
  rw [hch, hlong]
  simp only [if_pos hd]
  rfl

theorem parenScanGo_step_quote {d : Doc} {f ln i depth : Nat} {lt : Chars}
    (hi : i < lt.length) (hch : lt.getD i ' ' = '"') :
    parenScanGo d (f + 1) ln i depth lt =
      parenScanGo d f ln (i + 1 + skipQuoteAux '"' (lt.drop (i + 1)) + 1) depth lt := by
  rw [parenScanGo, if_pos hi]
  dsimp only
  rw [hch]
  rfl

theorem quote_scan_steps (f : Nat) (s : Chars)
    (h : ∀ c ∈ s, ¬(c == '"') ∧ ¬(c == '\\')) :
    parenScanGo (quoteDoc s) (f + 3) 0 12 0 (lineQ s) = .found 0 (s.length + 15) := by
  have hlen := lineQ_length s
  rw [parenScanGo_step_open (by omega) (lineQ_getD12 s) (lineQ_longOpen12 s)]
  rw [parenScanGo_step_quote (by omega) (lineQ_getD13 s)]
  have hskip : skipQuoteAux '"' ((lineQ s).drop (12 + 1 + 1)) = s.length := by
    have hd : (lineQ s).drop (12 + 1 + 1) = s ++ '"' :: [')'] := lineQ_drop14 s
    rw [hd]
    exact skipQuoteAux_clean s [')'] h
  rw [hskip]
  have harith : 12 + 1 + 1 + s.length + 1 = s.length + 15 := by omega
  rw [harith]
  exact parenScanGo_step_close_found (by omega) (lineQ_getD_last s)
    (lineQ_longOpen_last s) (by omega)



theorem strategyOne_quote (s : Chars) (h : ∀ c ∈ s, ¬(c == '"') ∧ ¬(c == '\\')) :
    strategyOneScan (quoteDoc s) quoteSym = .found 0 (s.length + 15) := by
  have hidx : strategyOneParenIdx (quoteDoc s) quoteSym = some 12 := by
    unfold strategyOneParenIdx
    have hoff : (quoteDoc s).offsetAt quoteSym.range.start = 0 := rfl
    rw [hoff]
    have htext : (quoteDoc s).getText = lineQ s ++ '\n' :: "end".data := rfl
    rw [htext]
    have hassoc : lineQ s ++ '\n' :: "end".data =
        "function foo(\"".data ++ (s ++ ("\")".data ++ '\n' :: "end".data)) := by
      unfold lineQ
      simp [List.append_assoc]
    rw [hassoc, strip_append (by decide) _]
    have hfind : findSub ("function foo(\"".data ++
        stripLuaComments (s ++ ("\")".data ++ '\n' :: "end".data))) ['('] = some 12 := rfl
    unfold indexOfFrom
    rw [List.drop_zero, hfind]
    rfl
  have hpos : (quoteDoc s).positionAt 12 = ⟨0, 12⟩ := by
    show positionAtAux [lineQ s, "end".data] 0 12 = _
    rw [positionAtAux_cons (by simp) 0 12]
    rw [if_pos (by rw [lineQ_length]; omega)]
  have hline : (quoteDoc s).lineAt 0 = lineQ s := rfl
  unfold strategyOneScan
  rw [hidx]
  dsimp only
  rw [hpos]
  dsimp only
  rw [hline]
  have hfuel : parenFuel (quoteDoc s) = (parenFuel (quoteDoc s) - 3) + 3 := by
    unfold parenFuel
    omega
  rw [hfuel]
  exact quote_scan_steps _ s h



/-- C5 amended: the first head-end strategy locates the first `(` in the
comment-stripped text at or after the rough symbol's OVERALL range start
(`document.offsetAt(docSymbol.range.start)`), and matches its closing
`)` with line-by-line scanning that skips quoted strings — whatever
their content, parentheses included: the result depends only on the
literal's length — and raw long-bracket literals (a `[[)]]` literal
inside the parameter list is skipped wholesale). -/
theorem strategy_one_contract :
    (∀ s : Chars, (∀ c ∈ s, ¬(c == '"') ∧ ¬(c == '\\')) →
      strategyOneScan (quoteDoc s) quoteSym = .found 0 (s.length + 15)) ∧
    strategyOneScan bracketDoc quoteSym = .found 0 20 ∧
    (∀ (d : Doc) (sym : DocSymbol),
      strategyOneParenIdx d sym =
        indexOfFrom (stripLuaComments d.getText) ['('] (d.offsetAt sym.range.start)) :=
  ⟨strategyOne_quote, by decide, fun _ _ => rfl⟩

/-- Witness for C5: the quoted-literal clause applied at the concrete
string content `)(`. -/
theorem strategy_one_contract_witness :
    ((")(".data : Chars).all (fun c => !(c == '"') && !(c == '\\'))) = true ∧
    strategyOneScan (quoteDoc ")(".data) quoteSym = .found 0 17 :=
  ⟨by decide, strategy_one_contract.1 ")(".data (by decide)⟩

/-- C4 amended: noninterference holds for the close-paren matching scan
of head-end strategy 1: two documents of equal length that differ only
in the characters inside a quoted string literal produce the same
strategy-1 head end.  (By the counterexample, the body-end scan is not
string-blind, so the claim's full statement fails.) -/
theorem paren_match_noninterference :
    ∀ s t : Chars, s.length = t.length →
      (∀ c ∈ s, ¬(c == '"') ∧ ¬(c == '\\')) →
      (∀ c ∈ t, ¬(c == '"') ∧ ¬(c == '\\')) →
      strategyOneScan (quoteDoc s) quoteSym = strategyOneScan (quoteDoc t) quoteSym := by
  intro s t hl hs ht
  rw [strategyOne_quote s hs, strategyOne_quote t ht, hl]

/-- Witness for C4: the two-run equality at the concrete equal-length
string contents `a)b(` and `((((`. -/
theorem paren_match_noninterference_witness :
    ("a)b(".data : Chars).length = ("((((".data : Chars).length ∧
    strategyOneScan (quoteDoc "a)b(".data) quoteSym =
      strategyOneScan (quoteDoc "((((".data) quoteSym :=
  ⟨by decide, paren_match_noninterference _ _ (by decide) (by decide) (by decide)⟩



theorem scan_if_line (rest : List Chars) (ln dpt : Nat) :
    scanGo [] ("  if x then".data :: rest) ln 0 dpt none =
      scanGo [] rest (ln + 1) 0 (dpt + 1) none := rfl

theorem scan_print_line (rest : List Chars) (ln dpt : Nat) :
    scanGo [] ("  print(1)".data :: rest) ln 0 dpt none =
      scanGo [] rest (ln + 1) 0 dpt none := rfl

theorem scan_end_line (rest : List Chars) (ln dpt : Nat) :
    scanGo [] ("  end".data :: rest) ln 0 (dpt + 1) none =
      scanGo [] rest (ln + 1) 0 dpt none := rfl

theorem scan_final_line (rest : List Chars) (ln : Nat) :
    scanGo [] ("end".data :: rest) ln 0 0 none = .found ln 0 := rfl



theorem scan_ifs (k : Nat) : ∀ (rest : List Chars) (ln dpt : Nat),
    scanGo [] (List.replicate k "  if x then".data ++ rest) ln 0 dpt none =
      scanGo [] rest (ln + k) 0 (dpt + k) none := by
  induction k with
  | zero => intro rest ln dpt; simp
  | succ k2 ih =>
    intro rest ln dpt
    rw [List.replicate_succ, List.cons_append, scan_if_line, ih]
    have h1 : ln + 1 + k2 = ln + (k2 + 1) := by omega
    have h2 : dpt + 1 + k2 = dpt + (k2 + 1) := by omega
    rw [h1, h2]

theorem scan_ends (k : Nat) : ∀ (rest : List Chars) (ln dpt : Nat),
    scanGo [] (List.replicate k "  end".data ++ rest) ln 0 (dpt + k) none =
      scanGo [] rest (ln + k) 0 dpt none := by
  induction k with
  | zero => intro rest ln dpt; simp
  | succ k2 ih =>
    intro rest ln dpt
    rw [List.replicate_succ, List.cons_append]
    have h : dpt + (k2 + 1) = (dpt + k2) + 1 := by omega
    rw [h, scan_end_line, ih]
    have h1 : ln + 1 + k2 = ln + (k2 + 1) := by omega
    rw [h1]

theorem famScan (n : Nat) :
    bodyEndScan (famDoc n) 1 0 [] = .found (2 * n + 2) 0 := by
  unfold bodyEndScan
  have hdrop : (famDoc n).lines.drop 1 =
      List.replicate n "  if x then".data ++
        ("  print(1)".data :: (List.replicate n "  end".data ++ ["end".data])) := rfl
  rw [hdrop, scan_ifs n _ 1 0, scan_print_line]
  rw [scan_ends n _ (1 + n + 1) 0, scan_final_line]
  congr 1
  omega



theorem joinLines_not_mem {c : Char} (hc : c ≠ '\n') :
    ∀ ls : List Chars, (∀ l ∈ ls, c ∉ l) → c ∉ joinLines ls := by
  intro ls
  induction ls with
  | nil => intro h; simp [joinLines]
  | cons l rest ih =>
    intro h
    cases rest with
    | nil => simpa [joinLines] using h l (by simp)
    | cons l2 rs =>
      rw [joinLines_cons (by simp)]
      intro hm
      rcases List.mem_append.mp hm with h1 | h2
      · exact h l (by simp) h1
      · rcases List.mem_cons.mp h2 with h3 | h4
        · exact hc h3
        · exact ih (fun x hx => h x (by simp [hx])) h4

theorem famDoc_line_cases (n : Nat) {l : Chars} (hl : l ∈ (famDoc n).lines) :
    l = "function f()".data ∨ l = "  if x then".data ∨ l = "  print(1)".data ∨
      l = "  end".data ∨ l = "end".data := by
  simp only [famDoc, List.mem_cons, List.mem_append, List.mem_replicate] at hl
  tauto

theorem famDoc_noDash (n : Nat) : ∀ c ∈ (famDoc n).getText, c ≠ '-' := by
  intro c hc heq
  subst heq
  refine joinLines_not_mem (by decide) _ ?_ hc
  intro l hl
  rcases famDoc_line_cases n hl with rfl | rfl | rfl | rfl | rfl <;> decide

theorem famDoc_findNone (n : Nat) (needle : Chars) (p : Nat × Nat)
    (h0 : findSub "function f()".data needle = none)
    (h1 : findSub "  if x then".data needle = none)
    (h2 : findSub "  print(1)".data needle = none)
    (h3 : findSub "  end".data needle = none)
    (h4 : findSub "end".data needle = none) :
    findInDocument needle (famDoc n) p = none := by
  unfold findInDocument
  apply findInDocGo_none
  intro l hl
  have hl2 : l ∈ (famDoc n).lines := List.mem_of_mem_drop hl
  rcases famDoc_line_cases n hl2 with rfl | rfl | rfl | rfl | rfl
  · exact h0
  · exact h1
  · exact h2
  · exact h3
  · exact h4



theorem famDoc_strategyOne (n : Nat) :
    strategyOneScan (famDoc n) (famSym n) = .found 0 11 := by
  have hidx : strategyOneParenIdx (famDoc n) (famSym n) = some 10 := by
    unfold strategyOneParenIdx
    have hoff : (famDoc n).offsetAt (famSym n).range.start = 0 := rfl
    rw [hoff, strip_id (famDoc_noDash n)]
    have hne : (famDoc n).lines.drop 1 ≠ [] := by
      have hd : (famDoc n).lines.drop 1 =
          List.replicate n "  if x then".data ++
            ("  print(1)".data :: (List.replicate n "  end".data ++ ["end".data])) := rfl
      rw [hd]
      simp
    have htext : (famDoc n).getText =
        "function f()".data ++ '\n' :: joinLines ((famDoc n).lines.drop 1) := by
      show joinLines ((famDoc n).lines) = _
      have hshape : (famDoc n).lines = "function f()".data :: (famDoc n).lines.drop 1 := rfl
      conv_lhs => rw [hshape]
      rw [joinLines_cons hne]
    rw [htext]
    have hfind : findSub ("function f()".data ++
        '\n' :: joinLines ((famDoc n).lines.drop 1)) ['('] = some 10 := rfl
    unfold indexOfFrom
    rw [List.drop_zero, hfind]
    rfl
  have hpos : (famDoc n).positionAt 10 = ⟨0, 10⟩ := by
    have hne : (famDoc n).lines.drop 1 ≠ [] := by
      have hd : (famDoc n).lines.drop 1 =
          List.replicate n "  if x then".data ++
            ("  print(1)".data :: (List.replicate n "  end".data ++ ["end".data])) := rfl
      rw [hd]
      simp
    show positionAtAux ("function f()".data :: (famDoc n).lines.drop 1) 0 10 = _
    rw [positionAtAux_cons hne]
    rw [if_pos (by decide)]
  unfold strategyOneScan
  rw [hidx]
  dsimp only
  rw [hpos]
  dsimp only
  have hline : (famDoc n).lineAt 0 = "function f()".data := rfl
  rw [hline]
  have hfuel : parenFuel (famDoc n) = ((parenFuel (famDoc n) - 2) + 1) + 1 := by
    unfold parenFuel
    omega
  rw [hfuel]
  rw [parenScanGo_step_open (by decide) (by decide) (by decide)]
  exact parenScanGo_step_close_found (by decide) (by decide) (by decide) (by decide)

theorem famDoc_headEnd (n : Nat) :
    headEndSearch (famDoc n) (famSym n) = .ok (0, 11) := by
  have hdo1 : findInDocument " do".data (famDoc n) (0, 10) = none :=
    famDoc_findNone n _ _ (by decide) (by decide) (by decide) (by decide) (by decide)
  have hdo2 : findInDocument "do".data (famDoc n) (0, 10) = none :=
    famDoc_findNone n _ _ (by decide) (by decide) (by decide) (by decide) (by decide)
  have hrep : findInDocument "repeat".data (famDoc n) (0, 10) = none :=
    famDoc_findNone n _ _ (by decide) (by decide) (by decide) (by decide) (by decide)
  unfold headEndSearch
  rw [famDoc_strategyOne n]
  dsimp only [famSym]
  rw [hdo1, hdo2]
  rfl

theorem famDoc_lineCount (n : Nat) : (famDoc n).lineCount = 2 * n + 3 := by
  simp only [famDoc, Doc.lineCount, List.length_cons, List.length_append,
    List.length_replicate, List.length_nil]
  omega

/-- C1 amended (family-scoped): for the documents `famDoc n` — a
function whose body properly nests `n` conditional blocks, every
block-opening keyword and every terminator on its own line, the inner
lines indented and the function's own `end` at the head line's
indentation, with no keyword text inside string literals — the body-end
scan's depth counter rises to `n` and returns to zero exactly at the
function's own `end`, which sits on the last line (line `2n+2`) and is
the accepted terminator — the outermost one — at every nesting depth
`n`.  The counterexamples show each proviso is necessary: an opener
sharing its line with a terminator, an outermost `end` indented unlike
the head line, or an `end` inside a string literal each defeat the
scan. -/
theorem nested_family_outermost :
    ∀ n : Nat,
      resolveHeuristic (famDoc n) (famSym n) =
        .ok ⟨⟨0, 9⟩, ⟨0, 11⟩⟩ ⟨⟨1, 0⟩, ⟨2 * n + 2, 3⟩⟩ ∧
      (famDoc n).lineCount = 2 * n + 3 := by
  intro n
  refine ⟨?_, famDoc_lineCount n⟩
  unfold resolveHeuristic
  rw [famDoc_headEnd n]
  dsimp only [famSym]
  have hadj : bodyStartAdjust (famDoc n) ⟨0, 11⟩ = ⟨1, 0⟩ := rfl
  rw [hadj]
  have hind : leadingWs ((famDoc n).lineAt 0) = [] := rfl
  rw [hind]
  rw [famScan n]

end LspExtenderLua
